import Mathlib

/-!
Verification of the DeFiHackLabs-Incident-Explorer update pipeline.

This file gives a shallow embedding of the incident extraction and
reconciliation engine:

* `scripts/update_data.py` — the field parsers (`_parse_loss_and_currency`,
  `_parse_type`, `_parse_chain`, `_normalize_currency`), the per-artifact
  record builder with override application (lines 570-613), the incident
  catalog merge (`update_incidents`, lines 584-619) and the root-cause
  catalog merge (`update_rootcause`, lines 622-684);
* `.github/workflow/scripts/normalize_attack.py` — the ordered
  pattern-table attack-type normalizer;
* `.github/workflows/scripts/parse_diff_and_update.py` — the changelog-diff
  insertion step (lines 89-133);
* `scripts/build_rootcause_from_md.py` — the `merge_existing` store loader.

Python strings are modelled as `String`/`List Char`; Python floats as `ℚ`
(all loss values reachable in the verified scenarios are integers, which
Python floats represent exactly); JSON dictionaries as ordered association
lists (`List (String × α)`), matching Python 3.7+ insertion-ordered dicts;
fallible loads as `Except`.  Each regular-expression search is embedded as
an explicit leftmost-match scanner whose behaviour was transcribed from the
semantics of the concrete pattern in the source (including the lazy
quantifier in the loss pattern, which makes the numeric group always match
exactly one digit because every following group is optional).
-/

/-! ## Character and string primitives -/

/-- Python `\s` on ASCII text: space, tab, newline, carriage return,
vertical tab, form feed. -/
def isPySpace (c : Char) : Bool :=
  c = ' ' || c = '\t' || c = '\n' || c = '\r' || c = '\x0b' || c = '\x0c'

def dropSpacesL : List Char → List Char
  | [] => []
  | c :: rest => if isPySpace c then dropSpacesL rest else c :: rest

/-- `listStarts pat s` is true when `pat` is an initial segment of `s`. -/
def listStarts : List Char → List Char → Bool
  | [], _ => true
  | _ :: _, [] => false
  | p :: ps, c :: cs => p = c && listStarts ps cs

/-- Case-insensitive `listStarts` (ASCII). -/
def lowStarts (pat : List Char) (s : List Char) : Bool :=
  listStarts pat (s.map Char.toLower)

def toLowerL (s : List Char) : List Char := s.map Char.toLower

def toUpperL (s : List Char) : List Char := s.map Char.toUpper

/-- Python `str.strip()` (leading and trailing whitespace removed). -/
def stripL (s : List Char) : List Char :=
  ((dropSpacesL ((dropSpacesL s.reverse)).reverse))

/-- Python `str.rstrip()`. -/
def rstripL (s : List Char) : List Char :=
  (dropSpacesL s.reverse).reverse

/-- Python `str.replace(pat, repl)`: replace every non-overlapping
occurrence, scanning left to right.  All call sites use a non-empty
pattern. -/
def replAllFuel (pat repl : List Char) : Nat → List Char → List Char
  | _, [] => []
  | 0, s => s
  | fuel + 1, c :: rest =>
    if pat ≠ [] && listStarts pat (c :: rest) then
      repl ++ replAllFuel pat repl fuel (rest.drop (pat.length - 1))
    else
      c :: replAllFuel pat repl fuel rest

/-- Each step consumes at least one character, so `s.length` steps always
suffice and the fuel never runs out. -/
def replAll (pat repl s : List Char) : List Char :=
  replAllFuel pat repl s.length s

def strReplace (s pat repl : String) : String :=
  String.mk (replAll pat.data repl.data s.data)

def toUpperS (s : String) : String := String.mk (toUpperL s.data)

def stripS (s : String) : String := String.mk (stripL s.data)

/-- Take at most `n` leading characters satisfying `p`. -/
def takeUpTo (n : Nat) (p : Char → Bool) : List Char → List Char
  | [] => []
  | c :: rest =>
    match n with
    | 0 => []
    | m + 1 => if p c then c :: takeUpTo m p rest else []

/-- Code-point lexicographic `≤` on character lists (the order Python uses
to compare `str` values).  Structural, so it evaluates by kernel
reduction. -/
def listLe : List Char → List Char → Bool
  | [], _ => true
  | _ :: _, [] => false
  | a :: as, b :: bs =>
    if a.toNat < b.toNat then true
    else if b.toNat < a.toNat then false
    else listLe as bs

def digitVal (c : Char) : ℕ := c.toNat - 48

/-! ## `_normalize_currency` (update_data.py lines 58-62) -/

def normalizeCurrency (token : String) : String :=
  let t := stripS (strReplace (strReplace (toUpperS token) "US$" "USD") "$" "USD")
  if t = "USD$" || t = "US D" || t = "US" || t = "U S D" then "USD" else t

/-! ## `_parse_loss_and_currency` (update_data.py lines 65-109)

The regex is
`(?:Total\s+)?Lo(?:ss|st)\s*[:\-]\s*~?\s*\$?\s*([0-9][0-9,\.]*?)\s*([KMBkmb]?)\s*([A-Za-z$]{0,6})?`
with `re.IGNORECASE`.  Group 1 is lazy and every following group can match
the empty string, so group 1 always matches exactly one digit.  Group 2
then greedily takes one `K/M/B` (either case) after optional whitespace and
group 3 greedily takes up to six `[A-Za-z$]` characters after optional
whitespace. -/

def isKMB (c : Char) : Bool :=
  c = 'K' || c = 'M' || c = 'B' || c = 'k' || c = 'm' || c = 'b'

def isCurChar (c : Char) : Bool := c.isAlpha || c = '$'

/-- Match the part of the loss pattern that follows `Lo(ss|st)`:
`\s*[:\-]\s*~?\s*\$?\s*` then the three capture groups. -/
def matchLossBody (cs : List Char) : Option (Char × Option Char × List Char) :=
  match dropSpacesL cs with
  | [] => none
  | sep :: r1 =>
    if sep = ':' || sep = '-' then
      let r2 := dropSpacesL r1
      let r3 := match r2 with
        | '~' :: t => dropSpacesL t
        | _ => r2
      let r4 := match r3 with
        | '$' :: t => dropSpacesL t
        | _ => r3
      match r4 with
      | [] => none
      | d :: r5 =>
        if d.isDigit then
          let r6 := dropSpacesL r5
          let (suf, r7) := match r6 with
            | c :: t => if isKMB c then (some c, t) else ((none : Option Char), r6)
            | [] => (none, ([] : List Char))
          let cur := takeUpTo 6 isCurChar (dropSpacesL r7)
          some (d, suf, cur)
        else none
    else none

/-- Try the whole loss pattern at the current position: optional
`Total\s+` prefix, then `loss` or `lost` (case-insensitive), then the
body. -/
def matchLossAt (cs : List Char) : Option (Char × Option Char × List Char) :=
  let core := fun (t : List Char) =>
    if lowStarts "loss".data t || lowStarts "lost".data t then
      matchLossBody (t.drop 4)
    else none
  if lowStarts "total".data cs then
    let r := cs.drop 5
    match r with
    | c :: _ =>
      if isPySpace c then
        match core (dropSpacesL r) with
        | some g => some g
        | none => core cs
      else core cs
    | [] => core cs
  else core cs

/-- `re.search`: leftmost position where the pattern matches. -/
def searchLoss : List Char → Option (Char × Option Char × List Char)
  | [] => none
  | c :: rest =>
    match matchLossAt (c :: rest) with
    | some g => some g
    | none => searchLoss rest

/-- `_parse_loss_and_currency`: returns `(lost, currency)`, defaulting to
`(0, "USD")` when the text is empty or the pattern does not match. -/
def parseLossAndCurrency (text : String) : ℚ × String :=
  if text = "" then (0, "USD")
  else
    match searchLoss text.data with
    | none => (0, "USD")
    | some (d, suf, cur) =>
      let base := digitVal d
      let mult : ℕ :=
        match suf with
        | some c =>
          if c.toUpper = 'K' then 1000
          else if c.toUpper = 'M' then 1000000
          else if c.toUpper = 'B' then 1000000000
          else 1
        | none => 1
      let c1 := normalizeCurrency (if cur.isEmpty then "USD" else String.mk cur)
      -- the source multiplies Python floats; a one-digit value times a
      -- power of ten is exact, so this is integer multiplication cast
      -- into ℚ
      (((base * mult : ℕ) : ℚ), if c1 = "" then "USD" else c1)

/-! ## `_parse_type` (update_data.py lines 112-116)

Regex `@Type\s*[:\-]\s*([^\n\r]+)` with `re.IGNORECASE`, group stripped. -/

def isLineChar (c : Char) : Bool := c ≠ '\n' && c ≠ '\r'

def matchTypeAt (cs : List Char) : Option (List Char) :=
  if lowStarts "@type".data cs then
    match dropSpacesL (cs.drop 5) with
    | sep :: r1 =>
      if sep = ':' || sep = '-' then
        let r2 := dropSpacesL r1
        let g := r2.takeWhile isLineChar
        if g.isEmpty then none else some g
      else none
    | [] => none
  else none

def searchType : List Char → Option (List Char)
  | [] => none
  | c :: rest =>
    match matchTypeAt (c :: rest) with
    | some g => some g
    | none => searchType rest

def parseType (text : String) : String :=
  if text = "" then ""
  else
    match searchType text.data with
    | some g => String.mk (stripL g)
    | none => ""

/-! ## `_parse_chain` (update_data.py lines 119-146)

Regex `createSelectFork\(\s*\"([a-zA-Z0-9_\-]+)\"` (case-sensitive), the
captured network lower-cased and mapped through a fixed alias table,
defaulting to `str.capitalize()` of the network. -/

def isNetChar (c : Char) : Bool := c.isAlphanum || c = '_' || c = '-'

def matchChainAt (cs : List Char) : Option (List Char) :=
  if listStarts "createSelectFork(".data cs then
    match dropSpacesL (cs.drop 17) with
    | '\"' :: r1 =>
      let g := r1.takeWhile isNetChar
      if g.isEmpty then none
      else
        match r1.drop g.length with
        | '\"' :: _ => some g
        | _ => none
    | _ => none
  else none

def searchChain : List Char → Option (List Char)
  | [] => none
  | c :: rest =>
    match matchChainAt (c :: rest) with
    | some g => some g
    | none => searchChain rest

def chainMapping : List (String × String) :=
  [("mainnet", "Ethereum"), ("eth_mainnet", "Ethereum"), ("ethereum", "Ethereum"),
   ("bsc", "BSC"), ("bnb", "BSC"),
   ("arbitrum", "Arbitrum"), ("arb", "Arbitrum"),
   ("base", "Base"),
   ("polygon", "Polygon"), ("matic", "Polygon"),
   ("optimism", "Optimism"), ("op", "Optimism"),
   ("fantom", "Fantom"),
   ("avalanche", "Avalanche"), ("avax", "Avalanche"),
   ("scroll", "Scroll"), ("blast", "Blast"), ("linea", "Linea")]

/-- Python `str.capitalize()`: first character upper-cased, the rest
lower-cased. -/
def pyCapitalize (s : List Char) : String :=
  match s with
  | [] => ""
  | c :: rest => String.mk (c.toUpper :: toLowerL rest)

def parseChain (text : String) : String :=
  if text = "" then "Unknown"
  else
    match searchChain text.data with
    | none => "Unknown"
    | some g =>
      let net := String.mk (toLowerL g)
      match (chainMapping.find? (fun kv => kv.1 = net)).map (·.2) with
      | some label => label
      | none => pyCapitalize net.data

/-! ## Folder year-month (update_data.py lines 178-182)

Regex `(\d{4})-(\d{2})` searched in the directory path. -/

def matchYMAt (cs : List Char) : Option (List Char × List Char) :=
  match cs with
  | a :: b :: c :: d :: h :: e :: f :: _ =>
    if a.isDigit && b.isDigit && c.isDigit && d.isDigit && h = '-'
        && e.isDigit && f.isDigit then
      some ([a, b, c, d], [e, f])
    else none
  | _ => none

def searchYM : List Char → Option (List Char × List Char)
  | [] => none
  | c :: rest =>
    match matchYMAt (c :: rest) with
    | some g => some g
    | none => searchYM rest

/-! ## `normalize_attack_type` (normalize_attack.py)

Every pattern in `ATTACK_TYPE_MAPPING` is a sequence of literal substrings
joined by `.*`.  Since `.` does not match a newline, `re.search(p, s)`
succeeds exactly when some newline-delimited line of `s` contains the
literal parts in order. -/

def splitOnNl : List Char → List (List Char)
  | [] => [[]]
  | c :: rest =>
    if c = '\n' then [] :: splitOnNl rest
    else
      match splitOnNl rest with
      | [] => [[c]]
      | l :: ls => (c :: l) :: ls

/-- Remainder of `s` after the first occurrence of `pat`, if any. -/
def dropToSub (pat : List Char) : List Char → Option (List Char)
  | [] => if pat.isEmpty then some [] else none
  | c :: rest =>
    if listStarts pat (c :: rest) then some ((c :: rest).drop pat.length)
    else dropToSub pat rest

def lineHasInOrder : List (List Char) → List Char → Bool
  | [], _ => true
  | p :: ps, s =>
    match dropToSub p s with
    | some r => lineHasInOrder ps r
    | none => false

/-- `re.search` of a `lit1.*lit2.*…` pattern in `s`. -/
def patMatches (parts : List String) (s : List Char) : Bool :=
  (splitOnNl s).any (lineHasInOrder (parts.map String.data))

/-- Python `str.title()` for ASCII text: the first letter of each
alphabetic run upper-cased, subsequent letters lower-cased. -/
def pyTitleGo : Bool → List Char → List Char
  | _, [] => []
  | prevAlpha, c :: rest =>
    if c.isAlpha then
      (if prevAlpha then c.toLower else c.toUpper) :: pyTitleGo true rest
    else
      c :: pyTitleGo false rest

def pyTitleL (s : List Char) : List Char := pyTitleGo false s

/-- The `re.sub(r"^(attack|exploit|hack):?\s+", "", t)` step: strip one
leading dismissive word, an optional colon, and at least one whitespace
character (the whole greedy whitespace run is consumed). -/
def stripAttackWord (t : List Char) : List Char :=
  let tryWord := fun (w : List Char) =>
    if listStarts w t then
      let r := t.drop w.length
      let r2 := match r with
        | ':' :: u => u
        | _ => r
      match r2 with
      | c :: _ => if isPySpace c then some (dropSpacesL r2) else none
      | [] => none
    else none
  match tryWord "attack".data with
  | some u => u
  | none =>
    match tryWord "exploit".data with
    | some u => u
    | none =>
      match tryWord "hack".data with
      | some u => u
      | none => t

def ATTACK_TYPE_MAPPING : List (List String × String) := [
  (["access", "control"], "Access Control"),
  (["unauthorized"], "Access Control"),
  (["unprotected"], "Access Control"),
  (["privilege"], "Access Control"),
  (["admin"], "Access Control"),
  (["ownership"], "Access Control"),
  (["permission"], "Access Control"),
  (["auth"], "Access Control"),
  (["lack", "of", "access"], "Access Control"),
  (["insufficient", "access"], "Access Control"),
  (["incorrect", "access"], "Access Control"),
  (["improper", "access"], "Access Control"),
  (["business", "logic"], "Logic Flaw"),
  (["logic", "flaw"], "Logic Flaw"),
  (["calculation"], "Logic Flaw"),
  (["logic", "error"], "Logic Flaw"),
  (["business", "rule"], "Logic Flaw"),
  (["bad", "logic"], "Logic Flaw"),
  (["business", "loigc"], "Logic Flaw"),
  (["bussiness", "logic"], "Logic Flaw"),
  (["incorrect", "logic"], "Logic Flaw"),
  (["improper", "logic"], "Logic Flaw"),
  (["rounding"], "Precision"),
  (["precision"], "Precision"),
  (["insufficient", "validation"], "Incorrect Validation"),
  (["validation"], "Incorrect Validation"),
  (["improper", "validation"], "Incorrect Validation"),
  (["flash", "loan"], "Flash Loan Attack"),
  (["flashloan"], "Flash Loan Attack"),
  (["flash", "swap"], "Flash Loan Attack"),
  (["loan", "attack"], "Flash Loan Attack"),
  (["price", "manipulation"], "Price Manipulation"),
  (["oracle", "manipulation"], "Price Manipulation"),
  (["price", "oracle"], "Price Manipulation"),
  (["manipulation"], "Price Manipulation"),
  (["oracle", "attack"], "Price Manipulation"),
  (["price", "feed"], "Price Manipulation"),
  (["bad", "oracle"], "Price Manipulation"),
  (["pool", "manipulation"], "Price Manipulation"),
  (["pool", "imbalance"], "Price Manipulation"),
  (["pair", "manipulate"], "Price Manipulation"),
  (["reentrancy"], "Reentrancy Attack"),
  (["re-entrancy"], "Reentrancy Attack"),
  (["reentrant"], "Reentrancy Attack"),
  (["read-only", "reentrancy"], "Reentrancy Attack"),
  (["cross", "contract", "reentrancy"], "Reentrancy Attack"),
  (["overflow"], "Overflow"),
  (["underflow"], "Overflow"),
  (["integer", "overflow"], "Overflow"),
  (["integer", "underflow"], "Overflow"),
  (["slippage"], "Slippage Protection"),
  (["storage", "collision"], "Storage Collision"),
  (["signature"], "Signature Verification"),
  (["verification"], "Signature Verification"),
  (["arbitrary", "calldata"], "Arbitrary Calldata"),
  (["arbitrary", "call"], "Arbitrary Calldata"),
  (["arbitrary", "yul"], "Arbitrary Yul Calldata"),
  (["weak", "random", "mint"], "Weak Random Mint"),
  (["arbitrary", "address"], "Arbitrary Address Spoofing Attack"),
  (["k-verification"], "K-Verification"),
  (["no", "slippage"], "Slippage Protection"),
  (["lack", "slippage"], "Slippage Protection"),
  (["phishing"], "Social Engineering"),
  (["social"], "Social Engineering"),
  (["scam"], "Social Engineering"),
  (["fraud"], "Social Engineering"),
  (["impersonation"], "Social Engineering"),
  (["rugpull"], "Social Engineering"),
  (["bug"], "Implementation Bug"),
  (["error"], "Implementation Bug"),
  (["incorrect"], "Implementation Bug"),
  (["wrong"], "Implementation Bug"),
  (["implementation", "flaw"], "Implementation Bug"),
  (["coding", "error"], "Implementation Bug"),
  (["design"], "Protocol Design"),
  (["architecture"], "Protocol Design"),
  (["specification"], "Protocol Design"),
  (["design", "flaw"], "Protocol Design"),
  (["front", "run"], "Front-running Attack"),
  (["frontrun"], "Front-running Attack"),
  (["mev"], "Front-running Attack"),
  (["governance"], "Governance Attack"),
  (["dao", "attack"], "Governance Attack"),
  (["voting"], "Governance Attack"),
  (["malicious", "proposal"], "Governance Attack"),
  (["sandwich"], "Sandwich Attack"),
  (["bridge"], "Bridge Attack"),
  (["cross", "chain"], "Bridge Attack"),
  (["inflation", "attack"], "Inflation Attack"),
  (["compoundv2", "inflation"], "Inflation Attack"),
  (["precision", "loss"], "Precision Loss"),
  (["loss", "of", "precision"], "Precision Loss"),
  (["self", "liquidation"], "Self-Liquidation"),
  (["swap", "metapool"], "Swap Metapool Attack"),
  (["private", "key"], "Private Key Compromised"),
  (["key", "compromised"], "Private Key Compromised"),
  (["token", "incompatible"], "Token Incompatible"),
  (["incompatible", "token"], "Token Incompatible"),
  (["protocol", "token", "incompatible"], "Protocol Token Incompatible"),
  (["deflationary", "token"], "Deflationary Token Incompatible"),
  (["weak", "rng"], "Weak RNG"),
  (["bad", "randomness"], "Weak RNG"),
  (["predicting", "random"], "Weak RNG"),
  (["fake", "market"], "Fake Market")
]

/-- The lower-cased, stripped, prefix-stripped phrase tested against the
pattern table. -/
def preprocessAttack (s : String) : List Char :=
  stripAttackWord (stripL (toLowerL s.data))

def firstLabel : List (List String × String) → List Char → Option String
  | [], _ => none
  | (pats, label) :: rest, t =>
    if patMatches pats t then some label else firstLabel rest t

def normalizeAttackType (s : String) : String :=
  if s = "" then "Unknown"
  else
    let t := preprocessAttack s
    match firstLabel ATTACK_TYPE_MAPPING t with
    | some label => label
    | none => String.mk (pyTitleL t)

/-! ## Data model

`Incident` models one element of `incidents.json` as written by the
engine: keys `date`, `name`, `type`, `Lost`, `lossType`, `Contract` always
present, `chain` present only when truthy (update_data.py lines 602-612).
`type` is a Lean keyword, so the field is called `type_`. -/

structure Incident where
  date : String
  name : String
  type_ : String
  Lost : ℚ
  lossType : String
  Contract : String
  chain : Option String
deriving DecidableEq

/-- The per-artifact values held in the local variables `rel`, `f`,
`date`, `name`, `type_`, `lost`, `loss_type`, `chain` after the parsing
phase of the `update_incidents` loop (lines 171-568), before overrides
are applied. -/
structure Candidate where
  rel : String
  fname : String
  date : String
  name : String
  type_ : String
  lost : ℚ
  lossType : String
  chain : String
deriving DecidableEq

/-- One override record.  A `none` field models an absent key, so
`ov.get(k, default)` is `getD`.  `lossType`/`loss_type` are the two
alternative keys read at line 580; `links`/`references` are the link lists
read at line 669 (a missing key is the empty list, which is falsy exactly
like an absent key). -/
structure Override where
  date : Option String := none
  name : Option String := none
  type_ : Option String := none
  Lost : Option ℚ := none
  lossType : Option String := none
  loss_type : Option String := none
  chain : Option String := none
  links : List String := []
  references : List String := []
deriving DecidableEq

/-- Lookup in the overrides mapping (a Python dict keyed by contract
path; keys are unique, so first match). -/
def ovLookup (ovm : List (String × Override)) (k : String) : Option Override :=
  (ovm.find? (fun kv => kv.1 = k)).map (·.2)

/-- `_pretty_default_name` (lines 149-151). -/
def prettyDefaultName (filename : String) : String :=
  strReplace (strReplace filename "_exp.sol" "") "_" " "

/-! ## Artifact parsing (update_incidents loop, README-absent path)

Models lines 171-203 together with line 567's exception guard for an
artifact whose directory has no readable README: `rel`, `name`, the
folder-derived `date`, and the three content parsers. -/

def parseArtifactNoReadme (root fname text : String) : Candidate :=
  let rel := strReplace (strReplace (root ++ "/" ++ fname) "\\" "/") "source/" ""
  let name := strReplace fname "_exp.sol" ""
  let date := match searchYM root.data with
    | some (y, m) => String.mk (y ++ m) ++ "01"
    | none => "00000000"
  let (lost, lossType) := parseLossAndCurrency text
  { rel := rel, fname := fname, date := date, name := name,
    type_ := parseType text, lost := lost, lossType := lossType,
    chain := parseChain text }

/-! ## Override application and record building (lines 570-613) -/

/-- Lines 571-582: each override key, when present, replaces the parsed
value. -/
def applyOverride (ovm : List (String × Override)) (c : Candidate) : Candidate :=
  match ovLookup ovm c.rel with
  | none => c
  | some ov =>
    { c with
      date := ov.date.getD c.date,
      name := ov.name.getD c.name,
      type_ := ov.type_.getD c.type_,
      lost := ov.Lost.getD c.lost,
      lossType := (ov.lossType.orElse (fun _ => ov.loss_type)).getD c.lossType,
      chain := ov.chain.getD c.chain }

/-- Lines 588-599: merge the candidate's truthy fields onto an existing
entry (empty strings and a zero loss are not written; `Contract` is never
touched). -/
def mergeFields (e : Incident) (c : Candidate) : Incident :=
  { date := if c.date ≠ "" then c.date else e.date,
    name := if c.name ≠ "" then c.name else e.name,
    type_ := if c.type_ ≠ "" then c.type_ else e.type_,
    Lost := if c.lost ≠ 0 then c.lost else e.Lost,
    lossType := if c.lossType ≠ "" then c.lossType else e.lossType,
    Contract := e.Contract,
    chain := if c.chain ≠ "" then some c.chain else e.chain }

/-- Lines 602-612: the fresh entry appended when the contract path is new.
The `chain` key is added only when `chain` is truthy. -/
def freshEntry (c : Candidate) : Incident :=
  { date := c.date,
    name := if c.name ≠ "" then c.name else prettyDefaultName c.fname,
    type_ := c.type_,
    Lost := c.lost,
    lossType := c.lossType,
    Contract := c.rel,
    chain := if c.chain ≠ "" then some c.chain else none }

/-! ## Incident catalog merge (`update_incidents`, lines 154-619)

`existing_by_contract` maps each contract path of the *loaded* catalog to
the last loaded entry carrying it (lines 165-169); appended entries are
never registered there (line 613 has no matching `existing_contracts.add`).
The state is therefore the loaded list (mutated in place) plus the list of
appended fresh entries. -/

def containsContract (l : List Incident) (rel : String) : Bool :=
  l.any (fun e => e.Contract = rel)

/-- Update the **last** entry of `l` whose `Contract` is `rel`. -/
def updateLastByContract (rel : String) (f : Incident → Incident) :
    List Incident → List Incident
  | [] => []
  | e :: l =>
    if containsContract l rel then e :: updateLastByContract rel f l
    else if e.Contract = rel then f e :: l
    else e :: l

def mergeStep (st : List Incident × List Incident) (c : Candidate) :
    List Incident × List Incident :=
  if containsContract st.1 c.rel then
    (updateLastByContract c.rel (fun e => mergeFields e c) st.1, st.2)
  else
    (st.1, st.2 ++ [freshEntry c])

/-- Stable insertion: `x` is placed before the first element it may
precede, so elements comparing equal keep their original relative order —
the same result as Python's stable `list.sort`. -/
def pyInsert (le : Incident → Incident → Bool) (x : Incident) :
    List Incident → List Incident
  | [] => [x]
  | y :: ys => if le x y then x :: y :: ys else y :: pyInsert le x ys

def pySort (le : Incident → Incident → Bool) : List Incident → List Incident
  | [] => []
  | x :: xs => pyInsert le x (pySort le xs)

/-- `incidents.sort(key=lambda x: x["date"], reverse=True)`: `a` may
precede `b` when `a.date ≥ b.date` in Python's lexicographic string
order. -/
def dateGe (a b : Incident) : Bool := listLe b.date.data a.date.data

/-- `update_incidents`: load `loaded`, walk the candidates (with overrides
applied), then sort by date descending unless `preserve_order`. -/
def updateIncidents (ovm : List (String × Override)) (loaded : List Incident)
    (cands : List Candidate) (preserveOrder : Bool) : List Incident :=
  let st := (cands.map (applyOverride ovm)).foldl mergeStep (loaded, [])
  let out := st.1 ++ st.2
  if preserveOrder then out else pySort dateGe out

/-! ## Root-cause catalog merge (`update_rootcause`, lines 622-684) -/

/-- One value of `rootcause_data.json` as created by the engine
(lines 650-657). -/
structure RootEntry where
  type_ : String
  date : String
  rootCause : String
  images : List String
  Lost : String
  Contract : String
deriving DecidableEq

/-- `rootcause_data.json` as an insertion-ordered dict. -/
abbrev RCData := List (String × RootEntry)

def rcKeys (d : RCData) : List String := d.map Prod.fst

/-- `_find_key_by_contract` (lines 633-637) together with the entry it
denotes: the first pair whose `Contract` equals `url`. -/
def rcFindEntry (d : RCData) (url : String) : Option (String × RootEntry) :=
  d.find? (fun kv => kv.2.Contract = url)

def rcLookup (d : RCData) (k : String) : Option RootEntry :=
  (d.find? (fun kv => kv.1 = k)).map (·.2)

/-- `data.pop(k)`: remove the (unique) entry with key `k`. -/
def rcErase (d : RCData) (k : String) : RCData :=
  match d with
  | [] => []
  | kv :: rest => if kv.1 = k then rest else kv :: rcErase rest k

/-- `data[k] = v`: replace in place when the key exists, else append. -/
def rcSet (d : RCData) (k : String) (v : RootEntry) : RCData :=
  match d with
  | [] => [(k, v)]
  | kv :: rest => if kv.1 = k then (k, v) :: rest else kv :: rcSet rest k v

def GITHUB_BASE : String := "https://github.com/SunWeb3Sec/DeFiHackLabs/blob/main/"

def rcContractURL (inc : Incident) : String := GITHUB_BASE ++ inc.Contract

/-- Python `str(q)` for a float holding an integral value (`str(5.0)` is
`"5.0"`); non-integral rationals are rendered as `num/den`, a deterministic
stand-in (no verified scenario reaches one). -/
def ratDisplay (q : ℚ) : String :=
  if q.den = 1 then toString q.num ++ ".0"
  else toString q.num ++ "/" ++ toString (q.den : ℤ)

/-- Fresh root-cause entry (lines 650-657). -/
def rcFreshEntry (inc : Incident) : RootEntry :=
  { type_ := inc.type_,
    date :=
      if inc.date.data.length = 8 then
        String.mk (inc.date.data.take 4) ++ "-"
          ++ String.mk ((inc.date.data.drop 4).take 2) ++ "-"
          ++ String.mk (inc.date.data.drop 6)
      else "",
    rootCause := "",
    images := [],
    Lost := ratDisplay inc.Lost ++ " " ++ inc.lossType,
    Contract := rcContractURL inc }

/-- Override edits on an existing root-cause entry (lines 660-679):
truthy `type`, 8-digit `date`, and link references appended into
`rootCause`.  The `Contract` field and the key are never touched. -/
def rcApplyOv (ov : Override) (e : RootEntry) : RootEntry :=
  let e1 := match ov.type_ with
    | some t => if t ≠ "" then { e with type_ := t } else e
    | none => e
  let e2 := match ov.date with
    | some dt =>
      if dt.data.length = 8 then
        { e1 with date :=
            String.mk (dt.data.take 4) ++ "-" ++ String.mk ((dt.data.drop 4).take 2)
              ++ "-" ++ String.mk (dt.data.drop 6) }
      else e1
    | none => e1
  let links := if ov.links ≠ [] then ov.links else ov.references
  if links = [] then e2
  else
    let refs := String.intercalate "\n" (links.map (fun u => "- " ++ u))
    let pre := "Link reference(s):\n"
    if e2.rootCause ≠ "" then
      { e2 with rootCause := String.mk (rstripL e2.rootCause.data) ++ "\n\n" ++ pre ++ refs }
    else
      { e2 with rootCause := pre ++ refs }

/-- Lines 643-647: if an entry with the same contract URL sits under a
different key, move it to the current display name and set `added`.  The
source guard is `if existing_key and existing_key != name:` — Python
truthiness, so an empty-string key also skips the migration. -/
def rcMigrate (st : RCData × Bool) (inc : Incident) : RCData × Bool :=
  match rcFindEntry st.1 (rcContractURL inc) with
  | some (k, e) =>
    if k ≠ "" ∧ k ≠ inc.name then (rcSet (rcErase st.1 k) inc.name e, true) else st
  | none => st

/-- Lines 649-658: create the fresh entry when the name is absent. -/
def rcCreate (st : RCData × Bool) (inc : Incident) : RCData × Bool :=
  if (rcLookup st.1 inc.name).isSome then st
  else (rcSet st.1 inc.name (rcFreshEntry inc), true)

/-- Lines 660-679: apply override edits to the entry at the display name
(present at this point in every reachable state; an absent name would be a
`KeyError` in the source, modelled as no edit). -/
def rcOverrideEdit (ovm : List (String × Override)) (d : RCData)
    (inc : Incident) : RCData :=
  match ovLookup ovm inc.Contract, rcLookup d inc.name with
  | some ov, some e => rcSet d inc.name (rcApplyOv ov e)
  | _, _ => d

/-- One iteration of the `for inc in incidents` loop (lines 639-679):
migrate a same-URL entry to the current display name, create a missing
entry, then apply override edits.  The boolean is the `added` flag. -/
def rcStep (ovm : List (String × Override)) (st : RCData × Bool)
    (inc : Incident) : RCData × Bool :=
  let s2 := rcCreate (rcMigrate st inc) inc
  (rcOverrideEdit ovm s2.1 inc, s2.2)

/-- `update_rootcause`: returns the in-memory store and the `added`
flag. -/
def updateRootcause (ovm : List (String × Override)) (d0 : RCData)
    (incs : List Incident) : RCData × Bool :=
  incs.foldl (rcStep ovm) (d0, false)

/-- Lines 681-683: the store file is rewritten only when `added`. -/
def persistRC (d0 : RCData) (res : RCData × Bool) : RCData :=
  if res.2 then res.1 else d0

/-- One run of `main()` (lines 687-695): `update_incidents` writes its
result unconditionally; `update_rootcause` persists only on `added`.  The
pair is the persisted contents of the two catalogs. -/
def runPipeline (ovm : List (String × Override)) (incStore : List Incident)
    (rcStore : RCData) (cands : List Candidate) (po : Bool) :
    List Incident × RCData :=
  let incs := updateIncidents ovm incStore cands po
  (incs, persistRC rcStore (updateRootcause ovm rcStore incs))

/-! ## Changelog-diff insertion (parse_diff_and_update.py lines 89-133)

`existing_set` is the set of canonical serializations of the records
loaded from the catalog (line 89); it is computed once and not extended
while appending, and membership compares the *whole* record, not the
contract path. -/

def diffAppend (existing : List Incident) (news : List Incident) : List Incident :=
  news.foldl (fun acc inc => if inc ∈ existing then acc else acc ++ [inc]) existing

/-! ## Store loading (error behaviour)

`StoreFile` models the three observable states of a JSON file consumed by
a loader: absent, present but not parseable, or parsed. -/

inductive StoreFile (α : Type) where
  | missing
  | unparseable
  | parsed (val : α)

/-- update_data.py lines 162-164: a missing `incidents.json` leaves the
list empty, but `json.load` failure propagates (there is no handler). -/
def loadIncidentsStore : StoreFile (List Incident) → Except Unit (List Incident)
  | .missing => .ok []
  | .unparseable => .error ()
  | .parsed l => .ok l

/-- update_data.py lines 625-629: same shape for `rootcause_data.json`. -/
def loadRootcauseStore : StoreFile RCData → Except Unit RCData
  | .missing => .ok []
  | .unparseable => .error ()
  | .parsed d => .ok d

/-- One element of a list-shaped overrides file: the `contract`/`Contract`
key (absent modelled as `none`) and the override payload. -/
structure OverrideItem where
  contract : Option String
  ov : Override

inductive OverridesFile where
  | missing
  | unparseable
  | parsedList (items : List OverrideItem)
  | parsedDict (m : List (String × Override))
  | parsedOther

/-- `data[k] = v` on an association list. -/
def upsertOv (m : List (String × Override)) (k : String) (v : Override) :
    List (String × Override) :=
  if m.any (fun kv => kv.1 = k) then
    m.map (fun kv => if kv.1 = k then (k, v) else kv)
  else
    m ++ [(k, v)]

/-- `_load_overrides` (lines 16-44): every failure mode yields the empty
mapping; list items without a truthy contract key are skipped. -/
def loadOverrides : OverridesFile → List (String × Override)
  | .missing => []
  | .unparseable => []
  | .parsedOther => []
  | .parsedDict m => m
  | .parsedList items =>
    items.foldl
      (fun out it =>
        match it.contract with
        | some k => if k ≠ "" then upsertOv out k it.ov else out
        | none => out)
      []

/-! ## `merge_existing` (build_rootcause_from_md.py lines 168-193) -/

/-- One value of the markdown-built root-cause map.  `Lost` and `POC` are
optional keys. -/
structure MdEntry where
  type_ : String := ""
  date : String := ""
  rootCause : String := ""
  Lost : Option String := none
  POC : Option String := none
  images : List String := []
deriving DecidableEq

abbrev MdMap := List (String × MdEntry)

def mdLookup (m : MdMap) (k : String) : Option MdEntry :=
  (m.find? (fun kv => kv.1 = k)).map (·.2)

def upsertMd (m : MdMap) (k : String) (v : MdEntry) : MdMap :=
  if m.any (fun kv => kv.1 = k) then
    m.map (fun kv => if kv.1 = k then (k, v) else kv)
  else
    m ++ [(k, v)]

/-- Field merge of lines 179-192: a new string value is written only when
non-empty after stripping; images are united preserving order. -/
def mdMergeOne (prev v : MdEntry) : MdEntry :=
  { type_ := if stripL v.type_.data ≠ [] then v.type_ else prev.type_,
    date := if stripL v.date.data ≠ [] then v.date else prev.date,
    rootCause := if stripL v.rootCause.data ≠ [] then v.rootCause else prev.rootCause,
    Lost := match v.Lost with
      | some s => if stripL s.data ≠ [] then some s else prev.Lost
      | none => prev.Lost,
    POC := match v.POC with
      | some s => if stripL s.data ≠ [] then some s else prev.POC
      | none => prev.POC,
    images := (prev.images ++ v.images).foldl
      (fun acc x => if x ∈ acc then acc else acc ++ [x]) [] }

def mdMergeLoop (existing : MdMap) (nd : MdMap) : MdMap :=
  nd.foldl
    (fun merged kv =>
      let prev := (mdLookup merged kv.1).getD {}
      upsertMd merged kv.1 (mdMergeOne prev kv.2))
    existing

/-- `merge_existing`: a missing store returns the new data unchanged; an
unparseable store is treated as the empty mapping (lines 168-175); both
proceed without raising. -/
def mergeExisting (file : StoreFile MdMap) (nd : MdMap) : MdMap :=
  match file with
  | .missing => nd
  | .unparseable => mdMergeLoop [] nd
  | .parsed ex => mdMergeLoop ex nd

/-! ## Predicates used by the invariant statements -/

/-- Entries with pairwise distinct contract paths — the catalog uniqueness
invariant. -/
def contractNe (x y : Incident) : Prop := x.Contract ≠ y.Contract

def relNe (x y : Candidate) : Prop := x.rel ≠ y.rel

/-- The list holds a carrier of the candidate's contract path, and every
such carrier is a fixed point of merging the candidate — the state reached
after one run has processed the candidate. -/
def AbsorbsCand (lst : List Incident) (c : Candidate) : Prop :=
  (∃ e ∈ lst, e.Contract = c.rel) ∧
  ∀ e ∈ lst, e.Contract = c.rel → mergeFields e c = e

/-- The root-cause store is in sync with an incident: its display name is
a key, and any entry holding its contract URL sits at that key.  On such a
store `rcStep` neither migrates nor creates. -/
def SyncedFor (d : RCData) (inc : Incident) : Prop :=
  (rcLookup d inc.name).isSome = true ∧
  ∀ kv ∈ d, kv.2.Contract = rcContractURL inc → kv.1 = inc.name

/-- Weakening of `SyncedFor` closed under `rcStep`: a holder of the
incident's contract URL may also sit under the empty-string key, which the
truthiness guard of the migration (update_data.py line 645) never pops —
such a holder is simply left in place by every later run. -/
def SyncedForE (d : RCData) (inc : Incident) : Prop :=
  (rcLookup d inc.name).isSome = true ∧
  ∀ kv ∈ d, kv.2.Contract = rcContractURL inc → kv.1 = inc.name ∨ kv.1 = ""

/-- At most one entry of the store holds the given contract URL. -/
def HolderUnique (d : RCData) (url : String) : Prop :=
  ∀ kv1 ∈ d, ∀ kv2 ∈ d, kv1.2.Contract = url → kv2.2.Contract = url →
    kv1.1 = kv2.1

instance : DecidableRel contractNe :=
  fun x y => inferInstanceAs (Decidable (x.Contract ≠ y.Contract))

instance : DecidableRel relNe :=
  fun x y => inferInstanceAs (Decidable (x.rel ≠ y.rel))

instance (d : RCData) (inc : Incident) : Decidable (SyncedFor d inc) :=
  inferInstanceAs (Decidable ((rcLookup d inc.name).isSome = true ∧
    ∀ kv ∈ d, kv.2.Contract = rcContractURL inc → kv.1 = inc.name))

instance (d : RCData) (url : String) : Decidable (HolderUnique d url) :=
  inferInstanceAs (Decidable (∀ kv1 ∈ d, ∀ kv2 ∈ d,
    kv1.2.Contract = url → kv2.2.Contract = url → kv1.1 = kv2.1))

/-! # Theorems

## Generic facts about the stable sort -/

theorem listLe_total : ∀ a b : List Char, listLe a b = true ∨ listLe b a = true
  | [], _ => Or.inl rfl
  | _ :: _, [] => Or.inr rfl
  | a :: as, b :: bs => by
    simp only [listLe]
    rcases Nat.lt_trichotomy a.toNat b.toNat with h | h | h
    · left; simp [h]
    · have h1 : ¬ a.toNat < b.toNat := by omega
      have h2 : ¬ b.toNat < a.toNat := by omega
      simp only [h1, h2, if_false]
      exact listLe_total as bs
    · right; simp [h]

theorem listLe_trans : ∀ a b c : List Char,
    listLe a b = true → listLe b c = true → listLe a c = true
  | [], _, _ => by intro _ _; rfl
  | _ :: _, [], _ => by intro h; simp [listLe] at h
  | _ :: _, _ :: _, [] => by intro _ h; simp [listLe] at h
  | a :: as, b :: bs, c :: cs => by
    intro h1 h2
    simp only [listLe] at h1 h2 ⊢
    rcases Nat.lt_trichotomy a.toNat c.toNat with h | h | h
    · simp [h]
    · have h1' : ¬ a.toNat < c.toNat := by omega
      have h2' : ¬ c.toNat < a.toNat := by omega
      simp only [h1', h2', if_false]
      split at h1
      · rename_i hab
        split at h2
        · rename_i hbc; omega
        · split at h2
          · exact absurd h2 (by simp)
          · omega
      · split at h1
        · exact absurd h1 (by simp)
        · rename_i hab hba
          split at h2
          · rename_i hbc; omega
          · split at h2
            · exact absurd h2 (by simp)
            · rename_i hbc hcb
              exact listLe_trans as bs cs h1 h2
    · exfalso
      split at h1
      · rename_i hab
        split at h2
        · rename_i hbc; omega
        · split at h2
          · exact absurd h2 (by simp)
          · omega
      · split at h1
        · exact absurd h1 (by simp)
        · split at h2
          · rename_i hbc; omega
          · split at h2
            · exact absurd h2 (by simp)
            · omega

theorem dateGe_total (a b : Incident) : dateGe a b = true ∨ dateGe b a = true :=
  listLe_total b.date.data a.date.data

theorem dateGe_trans {a b c : Incident} (h1 : dateGe a b = true)
    (h2 : dateGe b c = true) : dateGe a c = true :=
  listLe_trans c.date.data b.date.data a.date.data h2 h1

theorem pyInsert_perm (le : Incident → Incident → Bool) (x : Incident) :
    ∀ l : List Incident, (pyInsert le x l).Perm (x :: l)
  | [] => List.Perm.refl _
  | y :: ys => by
    simp only [pyInsert]
    split
    · exact List.Perm.refl _
    · exact ((pyInsert_perm le x ys).cons y).trans (List.Perm.swap x y ys)

theorem pySort_perm (le : Incident → Incident → Bool) :
    ∀ l : List Incident, (pySort le l).Perm l
  | [] => List.Perm.refl _
  | x :: xs => (pyInsert_perm le x (pySort le xs)).trans ((pySort_perm le xs).cons x)

theorem pyInsert_pairwise (le : Incident → Incident → Bool)
    (htot : ∀ a b, le a b = true ∨ le b a = true)
    (htrans : ∀ {a b c}, le a b = true → le b c = true → le a c = true)
    (x : Incident) :
    ∀ l : List Incident, l.Pairwise (fun a b => le a b = true) →
      (pyInsert le x l).Pairwise (fun a b => le a b = true)
  | [], _ => List.pairwise_singleton _ x
  | y :: ys, h => by
    rcases List.pairwise_cons.mp h with ⟨hy, hys⟩
    simp only [pyInsert]
    split
    · rename_i hxy
      refine List.pairwise_cons.mpr ⟨?_, h⟩
      intro z hz
      rcases List.mem_cons.mp hz with rfl | hz
      · exact hxy
      · exact htrans hxy (hy z hz)
    · rename_i hxy
      have hyx : le y x = true := (htot x y).resolve_left hxy
      refine List.pairwise_cons.mpr ⟨?_, pyInsert_pairwise le htot htrans x ys hys⟩
      intro z hz
      have := (pyInsert_perm le x ys).mem_iff.mp hz
      rcases List.mem_cons.mp this with rfl | hz'
      · exact hyx
      · exact hy z hz'

theorem pySort_pairwise (le : Incident → Incident → Bool)
    (htot : ∀ a b, le a b = true ∨ le b a = true)
    (htrans : ∀ {a b c}, le a b = true → le b c = true → le a c = true) :
    ∀ l : List Incident, (pySort le l).Pairwise (fun a b => le a b = true)
  | [] => List.Pairwise.nil
  | x :: xs => pyInsert_pairwise le htot htrans x (pySort le xs)
      (pySort_pairwise le htot htrans xs)

theorem pySort_of_pairwise (le : Incident → Incident → Bool) :
    ∀ l : List Incident, l.Pairwise (fun a b => le a b = true) → pySort le l = l
  | [], _ => rfl
  | x :: xs, h => by
    rcases List.pairwise_cons.mp h with ⟨hx, hxs⟩
    simp only [pySort, pySort_of_pairwise le xs hxs]
    cases xs with
    | nil => rfl
    | cons y ys =>
      simp only [pyInsert, hx y (List.mem_cons_self y ys), if_true]

theorem pySort_idem (le : Incident → Incident → Bool)
    (htot : ∀ a b, le a b = true ∨ le b a = true)
    (htrans : ∀ {a b c}, le a b = true → le b c = true → le a c = true)
    (l : List Incident) : pySort le (pySort le l) = pySort le l :=
  pySort_of_pairwise le _ (pySort_pairwise le htot htrans l)

/-! ## Facts about the incident catalog merge -/

theorem applyOverride_rel (ovm : List (String × Override)) (c : Candidate) :
    (applyOverride ovm c).rel = c.rel := by
  unfold applyOverride
  cases ovLookup ovm c.rel <;> rfl

theorem mergeFields_contract (e : Incident) (c : Candidate) :
    (mergeFields e c).Contract = e.Contract := rfl

theorem mergeFields_idem (e : Incident) (c : Candidate) :
    mergeFields (mergeFields e c) c = mergeFields e c := by
  simp only [mergeFields]
  split_ifs <;> rfl

theorem mergeFields_fresh (c : Candidate) :
    mergeFields (freshEntry c) c = freshEntry c := by
  simp only [mergeFields, freshEntry]
  split_ifs <;> rfl

theorem containsContract_iff (l : List Incident) (rel : String) :
    containsContract l rel = true ↔ ∃ e ∈ l, e.Contract = rel := by
  simp [containsContract, List.any_eq_true]

/-- `updateLastByContract` leaves the contract-path sequence unchanged when
`f` preserves contracts. -/
theorem updateLast_map_contract (rel : String) (f : Incident → Incident)
    (hf : ∀ e, (f e).Contract = e.Contract) :
    ∀ l : List Incident,
      (updateLastByContract rel f l).map (·.Contract) = l.map (·.Contract)
  | [] => rfl
  | e :: l => by
    simp only [updateLastByContract]
    split
    · simp [updateLast_map_contract rel f hf l]
    · split
      · simp [hf]
      · rfl

/-- Entries whose contract differs from `rel` are untouched. -/
theorem updateLast_mem_of_ne (rel : String) (f : Incident → Incident)
    {x : Incident} (hx : x.Contract ≠ rel) :
    ∀ l : List Incident, x ∈ l → x ∈ updateLastByContract rel f l
  | [], h => absurd h (List.not_mem_nil x)
  | e :: l, h => by
    simp only [updateLastByContract]
    by_cases h1 : containsContract l rel = true
    · rw [if_pos h1]
      rcases List.mem_cons.mp h with rfl | h'
      · exact List.mem_cons_self _ _
      · exact List.mem_cons_of_mem _ (updateLast_mem_of_ne rel f hx l h')
    · rw [if_neg h1]
      rcases List.mem_cons.mp h with rfl | h'
      · rw [if_neg hx]
        exact List.mem_cons_self _ _
      · by_cases h2 : e.Contract = rel
        · rw [if_pos h2]; exact List.mem_cons_of_mem _ h'
        · rw [if_neg h2]; exact List.mem_cons_of_mem _ h'

/-- Members of the updated list: each is an original entry or the image of
an original entry carrying `rel`. -/
theorem updateLast_mem (rel : String) (f : Incident → Incident) :
    ∀ l : List Incident, ∀ x ∈ updateLastByContract rel f l,
      x ∈ l ∨ ∃ e ∈ l, e.Contract = rel ∧ x = f e
  | [], x, h => absurd h (List.not_mem_nil x)
  | e :: l, x, h => by
    simp only [updateLastByContract] at h
    split at h
    · rcases List.mem_cons.mp h with rfl | h'
      · exact Or.inl (List.mem_cons_self _ _)
      · rcases updateLast_mem rel f l x h' with h2 | ⟨e', he', hc, hx⟩
        · exact Or.inl (List.mem_cons_of_mem _ h2)
        · exact Or.inr ⟨e', List.mem_cons_of_mem _ he', hc, hx⟩
    · split at h
      · rcases List.mem_cons.mp h with rfl | h'
        · rename_i hc
          exact Or.inr ⟨e, List.mem_cons_self _ _, hc, rfl⟩
        · exact Or.inl (List.mem_cons_of_mem _ h')
      · rcases List.mem_cons.mp h with rfl | h'
        · exact Or.inl (List.mem_cons_self _ _)
        · exact Or.inl (List.mem_cons_of_mem _ h')

/-- When present, the carrier of `rel` is still present after the update
(as the image under `f`, which preserves contracts). -/
theorem updateLast_exists (rel : String) (f : Incident → Incident)
    (hf : ∀ e, (f e).Contract = e.Contract) :
    ∀ l : List Incident, containsContract l rel = true →
      ∃ x ∈ updateLastByContract rel f l, x.Contract = rel := by
  intro l hl
  rcases (containsContract_iff l rel).mp hl with ⟨e, he, hc⟩
  have hmap := updateLast_map_contract rel f hf l
  have : rel ∈ (updateLastByContract rel f l).map (·.Contract) := by
    rw [hmap]
    exact List.mem_map.mpr ⟨e, he, hc⟩
  rcases List.mem_map.mp this with ⟨x, hx, hxc⟩
  exact ⟨x, hx, hxc⟩

/-- If every carrier of `rel` is a fixed point of `f`, the update is the
identity. -/
theorem updateLast_id (rel : String) (f : Incident → Incident) :
    ∀ l : List Incident, (∀ e ∈ l, e.Contract = rel → f e = e) →
      updateLastByContract rel f l = l
  | [], _ => rfl
  | e :: l, h => by
    simp only [updateLastByContract]
    have hl : updateLastByContract rel f l = l :=
      updateLast_id rel f l (fun e' he' => h e' (List.mem_cons_of_mem _ he'))
    split
    · rw [hl]
    · split
      · rename_i hc
        rw [h e (List.mem_cons_self _ _) hc]
      · rfl


/-- In a catalog with pairwise distinct contract paths, any post-update
carrier of `rel` is the image of the (unique) original carrier. -/
theorem updateLast_carrier_eq (rel : String) (f : Incident → Incident) :
    ∀ l : List Incident, l.Pairwise contractNe →
      ∀ x ∈ updateLastByContract rel f l, x.Contract = rel →
        ∃ e₀ ∈ l, e₀.Contract = rel ∧ x = f e₀
  | [], _, x, hx, _ => absurd hx (List.not_mem_nil x)
  | e :: t, hP, x, hx, hxc => by
    rcases List.pairwise_cons.mp hP with ⟨he, hPt⟩
    simp only [updateLastByContract] at hx
    by_cases h1 : containsContract t rel = true
    · rw [if_pos h1] at hx
      rcases List.mem_cons.mp hx with rfl | hx'
      · exfalso
        rcases (containsContract_iff t rel).mp h1 with ⟨y, hy, hyc⟩
        exact he y hy (by rw [hxc, hyc])
      · rcases updateLast_carrier_eq rel f t hPt x hx' hxc with ⟨e₀, he₀, hc₀, hxe⟩
        exact ⟨e₀, List.mem_cons_of_mem _ he₀, hc₀, hxe⟩
    · rw [if_neg h1] at hx
      by_cases h2 : e.Contract = rel
      · rw [if_pos h2] at hx
        rcases List.mem_cons.mp hx with rfl | hx'
        · exact ⟨e, List.mem_cons_self _ _, h2, rfl⟩
        · exfalso
          exact h1 ((containsContract_iff t rel).mpr ⟨x, hx', hxc⟩)
      · rw [if_neg h2] at hx
        rcases List.mem_cons.mp hx with rfl | hx'
        · exact absurd hxc h2
        · exfalso
          exact h1 ((containsContract_iff t rel).mpr ⟨x, hx', hxc⟩)

theorem absorbsCand_of_perm {l l' : List Incident} (h : l.Perm l') {c : Candidate}
    (ha : AbsorbsCand l c) : AbsorbsCand l' c := by
  rcases ha with ⟨⟨e, he, hc⟩, hall⟩
  exact ⟨⟨e, h.mem_iff.mp he, hc⟩, fun e' he' hc' => hall e' (h.mem_iff.mpr he') hc'⟩

/-- `mergeStep` for a candidate with a different contract path preserves
`AbsorbsCand`. -/
theorem mergeStep_absorbsCand {st : List Incident × List Incident}
    {c c' : Candidate} (hne : c'.rel ≠ c.rel)
    (h : AbsorbsCand (st.1 ++ st.2) c) :
    AbsorbsCand ((mergeStep st c').1 ++ (mergeStep st c').2) c := by
  rcases h with ⟨⟨e, he, hc⟩, hall⟩
  unfold mergeStep
  by_cases hcc : containsContract st.1 c'.rel = true
  · rw [if_pos hcc]
    refine ⟨?_, ?_⟩
    · rcases List.mem_append.mp he with h1 | h2
      · exact ⟨e, List.mem_append.mpr (Or.inl
          (updateLast_mem_of_ne c'.rel _ (by rw [hc]; exact fun h' => hne h'.symm) st.1 h1)), hc⟩
      · exact ⟨e, List.mem_append.mpr (Or.inr h2), hc⟩
    · intro x hx hxc
      rcases List.mem_append.mp hx with h1 | h2
      · rcases updateLast_mem c'.rel _ st.1 x h1 with h3 | ⟨e₀, _, he₀c, hxe⟩
        · exact hall x (List.mem_append.mpr (Or.inl h3)) hxc
        · exfalso
          apply hne
          rw [← he₀c, ← hxc, hxe, mergeFields_contract]
      · exact hall x (List.mem_append.mpr (Or.inr h2)) hxc
  · rw [if_neg hcc]
    refine ⟨?_, ?_⟩
    · refine ⟨e, List.mem_append.mpr ?_, hc⟩
      rcases List.mem_append.mp he with h1 | h2
      · exact Or.inl h1
      · exact Or.inr (List.mem_append.mpr (Or.inl h2))
    · intro x hx hxc
      rcases List.mem_append.mp hx with h1 | h2
      · exact hall x (List.mem_append.mpr (Or.inl h1)) hxc
      · rcases List.mem_append.mp h2 with h3 | h4
        · exact hall x (List.mem_append.mpr (Or.inr h3)) hxc
        · exfalso
          have hxf : x = freshEntry c' := by simpa using h4
          apply hne
          rw [← hxc, hxf]
          rfl

theorem pairwise_contractNe_iff {l : List Incident} :
    l.Pairwise contractNe ↔ (l.map (fun e => e.Contract)).Pairwise (· ≠ ·) := by
  rw [List.pairwise_map]
  exact Iff.rfl

theorem containsContract_false {l : List Incident} {rel : String}
    (h : ¬ containsContract l rel = true) : ∀ e ∈ l, e.Contract ≠ rel := by
  intro e he hc
  exact h ((containsContract_iff l rel).mpr ⟨e, he, hc⟩)

theorem mergeRun_absorbsCand :
    ∀ (cands : List Candidate) (st : List Incident × List Incident) (c : Candidate),
      (∀ c' ∈ cands, c'.rel ≠ c.rel) →
      AbsorbsCand (st.1 ++ st.2) c →
      AbsorbsCand ((cands.foldl mergeStep st).1 ++ (cands.foldl mergeStep st).2) c
  | [], _, _, _, h => h
  | c' :: cands, st, c, hne, h => by
    simp only [List.foldl_cons]
    exact mergeRun_absorbsCand cands (mergeStep st c') c
      (fun c'' hc'' => hne c'' (List.mem_cons_of_mem _ hc''))
      (mergeStep_absorbsCand (hne c' (List.mem_cons_self _ _)) h)

/-- Invariant of one `update_incidents` fold (lines 584-613): from a state
with pairwise distinct contract paths whose appended part avoids every
remaining candidate path, the fold keeps the paths pairwise distinct and
leaves every processed candidate absorbed. -/
theorem mergeRun_main :
    ∀ (cands : List Candidate) (l a : List Incident),
      (l ++ a).Pairwise contractNe →
      cands.Pairwise relNe →
      (∀ c ∈ cands, ∀ e ∈ a, e.Contract ≠ c.rel) →
      ((cands.foldl mergeStep (l, a)).1 ++ (cands.foldl mergeStep (l, a)).2).Pairwise contractNe ∧
      ∀ c ∈ cands, AbsorbsCand
        ((cands.foldl mergeStep (l, a)).1 ++ (cands.foldl mergeStep (l, a)).2) c
  | [], l, a, hP, _, _ => ⟨hP, by simp⟩
  | c :: cands, l, a, hP, hC, hCa => by
    rcases List.pairwise_cons.mp hC with ⟨hcrel, hC'⟩
    have hPl : l.Pairwise contractNe := (List.pairwise_append.mp hP).1
    have hPa : a.Pairwise contractNe := (List.pairwise_append.mp hP).2.1
    have hPla : ∀ x ∈ l, ∀ y ∈ a, contractNe x y := (List.pairwise_append.mp hP).2.2
    simp only [List.foldl_cons]
    by_cases hcc : containsContract l c.rel = true
    · -- known path: in-place update of the unique loaded carrier
      have hstep : mergeStep (l, a) c =
          (updateLastByContract c.rel (fun e => mergeFields e c) l, a) := by
        unfold mergeStep
        rw [if_pos hcc]
      rw [hstep]
      have hmap : (updateLastByContract c.rel (fun e => mergeFields e c) l).map (·.Contract)
          = l.map (·.Contract) :=
        updateLast_map_contract c.rel _ (fun e => mergeFields_contract e c) l
      have hP' : (updateLastByContract c.rel (fun e => mergeFields e c) l ++ a).Pairwise
          contractNe := by
        have hmap2 : (updateLastByContract c.rel (fun e => mergeFields e c) l ++ a).map
            (fun e => e.Contract) = (l ++ a).map (fun e => e.Contract) := by
          simp only [List.map_append]
          rw [hmap]
        have h1 : ((l ++ a).map (fun e => e.Contract)).Pairwise (· ≠ ·) :=
          pairwise_contractNe_iff.mp hP
        exact pairwise_contractNe_iff.mpr (hmap2 ▸ h1)
      have hrec := mergeRun_main cands (updateLastByContract c.rel (fun e => mergeFields e c) l)
        a hP' hC' (fun c' hc' e he => hCa c' (List.mem_cons_of_mem _ hc') e he)
      refine ⟨hrec.1, ?_⟩
      intro c' hc'
      rcases List.mem_cons.mp hc' with rfl | hc''
      · -- the head candidate is absorbed right after its own step …
        have habs : AbsorbsCand
            (updateLastByContract c'.rel (fun e => mergeFields e c') l ++ a) c' := by
          refine ⟨?_, ?_⟩
          · rcases updateLast_exists c'.rel _ (fun e => mergeFields_contract e c') l hcc
              with ⟨x, hx, hxc⟩
            exact ⟨x, List.mem_append.mpr (Or.inl hx), hxc⟩
          · intro x hx hxc
            rcases List.mem_append.mp hx with h1 | h2
            · rcases updateLast_carrier_eq c'.rel _ l hPl x h1 hxc with ⟨e₀, _, _, hxe⟩
              rw [hxe]
              exact mergeFields_idem e₀ c'
            · exact absurd hxc (hCa c' (List.mem_cons_self _ _) x h2)
        -- … and stays absorbed through the rest of the fold
        exact mergeRun_absorbsCand cands _ c' (fun c'' hc'' => (hcrel c'' hc'').symm) habs
      · exact hrec.2 c' hc''
    · -- new path: fresh append
      have hstep : mergeStep (l, a) c = (l, a ++ [freshEntry c]) := by
        unfold mergeStep
        rw [if_neg hcc]
      rw [hstep]
      have hlne : ∀ e ∈ l, e.Contract ≠ c.rel := containsContract_false hcc
      have hane : ∀ e ∈ a, e.Contract ≠ c.rel := hCa c (List.mem_cons_self _ _)
      have hfreshc : (freshEntry c).Contract = c.rel := rfl
      have hP' : (l ++ (a ++ [freshEntry c])).Pairwise contractNe := by
        rw [List.pairwise_append]
        refine ⟨hPl, ?_, ?_⟩
        · rw [List.pairwise_append]
          refine ⟨hPa, List.pairwise_singleton _ _, ?_⟩
          intro y hy z hz
          have hz' : z = freshEntry c := by simpa using hz
          rw [hz']
          exact fun h => hane y hy (by rw [← hfreshc, h])
        · intro x hx y hy
          rcases List.mem_append.mp hy with h1 | h2
          · exact hPla x hx y h1
          · have hy' : y = freshEntry c := by simpa using h2
            rw [hy']
            exact fun h => hlne x hx (by rw [← hfreshc, h])
      have hCa' : ∀ c' ∈ cands, ∀ e ∈ a ++ [freshEntry c], e.Contract ≠ c'.rel := by
        intro c' hc' e he
        rcases List.mem_append.mp he with h1 | h2
        · exact hCa c' (List.mem_cons_of_mem _ hc') e h1
        · have he' : e = freshEntry c := by simpa using h2
          rw [he', hfreshc]
          exact hcrel c' hc'
      have hrec := mergeRun_main cands l (a ++ [freshEntry c]) hP' hC' hCa'
      refine ⟨hrec.1, ?_⟩
      intro c' hc'
      rcases List.mem_cons.mp hc' with rfl | hc''
      · have habs : AbsorbsCand (l ++ (a ++ [freshEntry c'])) c' := by
          refine ⟨⟨freshEntry c', by simp, rfl⟩, ?_⟩
          intro x hx hxc
          rcases List.mem_append.mp hx with h1 | h2
          · exact absurd hxc (hlne x h1)
          · rcases List.mem_append.mp h2 with h3 | h4
            · exact absurd hxc (hane x h3)
            · have hx' : x = freshEntry c' := by simpa using h4
              rw [hx']
              exact mergeFields_fresh c'
        exact mergeRun_absorbsCand cands _ c' (fun c'' hc'' => (hcrel c'' hc'').symm) habs
      · exact hrec.2 c' hc''

/-- Second-run fixpoint: when every candidate is already absorbed by the
loaded catalog, the fold changes nothing and appends nothing. -/
theorem mergeRun_fixpoint :
    ∀ (cands : List Candidate) (l : List Incident),
      (∀ c ∈ cands, AbsorbsCand l c) →
      cands.foldl mergeStep (l, []) = (l, [])
  | [], _, _ => rfl
  | c :: cands, l, h => by
    simp only [List.foldl_cons]
    rcases h c (List.mem_cons_self _ _) with ⟨⟨e, he, hc⟩, hall⟩
    have hcc : containsContract l c.rel = true :=
      (containsContract_iff l c.rel).mpr ⟨e, he, hc⟩
    have hstep : mergeStep (l, []) c = (l, []) := by
      unfold mergeStep
      rw [if_pos hcc, updateLast_id c.rel _ l (fun e' he' hc' => hall e' he' hc')]
    rw [hstep]
    exact mergeRun_fixpoint cands l (fun c' hc' => h c' (List.mem_cons_of_mem _ hc'))

theorem mapped_pairwise_relNe (ovm : List (String × Override))
    {cands : List Candidate} (hB : cands.Pairwise relNe) :
    (cands.map (applyOverride ovm)).Pairwise relNe := by
  refine hB.map _ ?_
  intro a b hab
  show (applyOverride ovm a).rel ≠ (applyOverride ovm b).rel
  rw [applyOverride_rel, applyOverride_rel]
  exact hab

/-- After `update_incidents`, the catalog absorbs every candidate (with its
override applied): a later identical run finds each contract path present
and rewrites only identical field values. -/
theorem updateIncidents_absorbs (ovm : List (String × Override))
    (loaded : List Incident) (cands : List Candidate) (po : Bool)
    (hA : loaded.Pairwise contractNe) (hB : cands.Pairwise relNe) :
    (updateIncidents ovm loaded cands po).Pairwise contractNe ∧
    ∀ c ∈ cands.map (applyOverride ovm),
      AbsorbsCand (updateIncidents ovm loaded cands po) c := by
  have hB' := mapped_pairwise_relNe ovm hB
  have hP0 : (loaded ++ ([] : List Incident)).Pairwise contractNe := by
    rw [List.append_nil]; exact hA
  have hmain := mergeRun_main (cands.map (applyOverride ovm)) loaded [] hP0 hB'
    (by intro c _ e he; exact absurd he (List.not_mem_nil e))
  unfold updateIncidents
  cases po with
  | true =>
    simp only [if_true]
    exact ⟨hmain.1, hmain.2⟩
  | false =>
    simp only [if_false]
    set out := ((cands.map (applyOverride ovm)).foldl mergeStep (loaded, [])).1 ++
      ((cands.map (applyOverride ovm)).foldl mergeStep (loaded, [])).2 with hout
    have hperm : out.Perm (pySort dateGe out) := (pySort_perm dateGe out).symm
    constructor
    · exact (hperm.pairwise_iff (fun h => h.symm)).mp hmain.1
    · intro c hc
      exact absorbsCand_of_perm hperm (hmain.2 c hc)

/-- Re-running `update_incidents` over unchanged candidates and overrides
reproduces the catalog exactly. -/
theorem updateIncidents_idem (ovm : List (String × Override))
    (loaded : List Incident) (cands : List Candidate) (po : Bool)
    (hA : loaded.Pairwise contractNe) (hB : cands.Pairwise relNe) :
    updateIncidents ovm (updateIncidents ovm loaded cands po) cands po =
      updateIncidents ovm loaded cands po := by
  rcases updateIncidents_absorbs ovm loaded cands po hA hB with ⟨hPW, hAbs⟩
  have hsorted : po = false → (updateIncidents ovm loaded cands po).Pairwise
      (fun a b => dateGe a b = true) := by
    intro hpo
    unfold updateIncidents
    rw [hpo]
    simp only [Bool.false_eq_true, if_false]
    exact pySort_pairwise dateGe dateGe_total (fun h1 h2 => dateGe_trans h1 h2) _
  set i1 := updateIncidents ovm loaded cands po with hi1
  have hfix := mergeRun_fixpoint (cands.map (applyOverride ovm)) i1 hAbs
  unfold updateIncidents
  rw [hfix]
  cases po with
  | true => simp
  | false =>
    simp only [Bool.false_eq_true, if_false, List.append_nil]
    -- the first-run catalog is already sorted, and a stable sort of a
    -- sorted list is the identity
    exact pySort_of_pairwise dateGe _ (hsorted rfl)

/-! ## Facts about the ordered-dict operations of the root-cause store -/

theorem rcLookup_cons (kv : String × RootEntry) (d : RCData) (k : String) :
    rcLookup (kv :: d) k = if kv.1 = k then some kv.2 else rcLookup d k := by
  by_cases h : kv.1 = k
  · simp [rcLookup, List.find?, h]
  · simp [rcLookup, List.find?, h]

theorem rcLookup_mem {d : RCData} {k : String} {e : RootEntry}
    (h : rcLookup d k = some e) : (k, e) ∈ d := by
  unfold rcLookup at h
  rcases hf : d.find? (fun kv => kv.1 = k) with _ | kv
  · rw [hf] at h; exact absurd h (by simp)
  · rw [hf] at h
    have h1 : kv.1 = k := by simpa using List.find?_some hf
    have h2 : kv.2 = e := by simpa using h
    have := List.mem_of_find?_eq_some hf
    rw [← h1, ← h2]
    simpa using this

theorem rcLookup_isSome_of_mem {d : RCData} {k : String} {e : RootEntry}
    (h : (k, e) ∈ d) : (rcLookup d k).isSome = true := by
  induction d with
  | nil => exact absurd h (List.not_mem_nil _)
  | cons kv rest ih =>
    rw [rcLookup_cons]
    by_cases h1 : kv.1 = k
    · simp [h1]
    · rw [if_neg h1]
      rcases List.mem_cons.mp h with rfl | h2
      · exact absurd rfl h1
      · exact ih h2

theorem rcErase_mem {d : RCData} {k : String} {kv : String × RootEntry}
    (h : kv ∈ rcErase d k) : kv ∈ d := by
  induction d with
  | nil => simp [rcErase] at h
  | cons kv' rest ih =>
    simp only [rcErase] at h
    split at h
    · exact List.mem_cons_of_mem _ h
    · rcases List.mem_cons.mp h with rfl | h2
      · exact List.mem_cons_self _ _
      · exact List.mem_cons_of_mem _ (ih h2)

theorem rcKeys_cons (kv : String × RootEntry) (d : RCData) :
    rcKeys (kv :: d) = kv.1 :: rcKeys d := rfl

theorem rcErase_mem_ne {d : RCData} (hnd : (rcKeys d).Nodup) {k : String}
    {kv : String × RootEntry} (h : kv ∈ rcErase d k) : kv.1 ≠ k := by
  induction d with
  | nil => simp [rcErase] at h
  | cons kv' rest ih =>
    rw [rcKeys_cons] at hnd
    rcases List.pairwise_cons.mp hnd with ⟨hk', hrest⟩
    simp only [rcErase] at h
    split at h
    · rename_i heq
      intro hkv
      exact hk' kv.1 (List.mem_map.mpr ⟨kv, h, rfl⟩) (by rw [hkv, heq])
    · rcases List.mem_cons.mp h with rfl | h2
      · rename_i hne; exact hne
      · exact ih hrest h2

theorem rcSet_mem {d : RCData} {k : String} {v : RootEntry}
    {kv : String × RootEntry} (h : kv ∈ rcSet d k v) : kv ∈ d ∨ kv = (k, v) := by
  induction d with
  | nil => exact Or.inr (by simpa [rcSet] using h)
  | cons kv' rest ih =>
    simp only [rcSet] at h
    split at h
    · rcases List.mem_cons.mp h with rfl | h2
      · exact Or.inr rfl
      · exact Or.inl (List.mem_cons_of_mem _ h2)
    · rcases List.mem_cons.mp h with rfl | h2
      · exact Or.inl (List.mem_cons_self _ _)
      · rcases ih h2 with h3 | h3
        · exact Or.inl (List.mem_cons_of_mem _ h3)
        · exact Or.inr h3

theorem rcLookup_rcSet_self (d : RCData) (k : String) (v : RootEntry) :
    rcLookup (rcSet d k v) k = some v := by
  induction d with
  | nil => simp [rcSet, rcLookup, List.find?]
  | cons kv rest ih =>
    simp only [rcSet]
    split
    · rw [rcLookup_cons]; simp
    · rw [rcLookup_cons]
      rename_i hne
      rw [if_neg hne]
      exact ih

theorem rcLookup_rcSet_ne (d : RCData) {k k' : String} (v : RootEntry)
    (h : k' ≠ k) : rcLookup (rcSet d k v) k' = rcLookup d k' := by
  induction d with
  | nil =>
    simp only [rcSet, rcLookup, List.find?]
    rw [decide_eq_false (fun hh : k = k' => h hh.symm)]
  | cons kv rest ih =>
    simp only [rcSet]
    split
    · rename_i heq
      rw [rcLookup_cons, rcLookup_cons, if_neg (fun hh : k = k' => h hh.symm),
        if_neg (by rw [heq]; exact fun hh : k = k' => h hh.symm)]
    · rw [rcLookup_cons, rcLookup_cons]
      by_cases h2 : kv.1 = k'
      · rw [if_pos h2, if_pos h2]
      · rw [if_neg h2, if_neg h2]
        exact ih

theorem rcLookup_rcErase_ne (d : RCData) {k k' : String}
    (h : k' ≠ k) : rcLookup (rcErase d k) k' = rcLookup d k' := by
  induction d with
  | nil => simp [rcErase]
  | cons kv rest ih =>
    simp only [rcErase]
    split
    · rename_i heq
      rw [rcLookup_cons, if_neg (by rw [heq]; exact fun hh : k = k' => h hh.symm)]
    · rw [rcLookup_cons, rcLookup_cons]
      by_cases h2 : kv.1 = k'
      · rw [if_pos h2, if_pos h2]
      · rw [if_neg h2, if_neg h2]
        exact ih

theorem rcFindEntry_mem {d : RCData} {url : String} {kv : String × RootEntry}
    (h : rcFindEntry d url = some kv) : kv ∈ d ∧ kv.2.Contract = url :=
  ⟨List.mem_of_find?_eq_some h, by simpa using List.find?_some h⟩

theorem rcFindEntry_none {d : RCData} {url : String}
    (h : rcFindEntry d url = none) : ∀ kv ∈ d, kv.2.Contract ≠ url := by
  intro kv hkv
  have := List.find?_eq_none.mp h kv hkv
  simpa using this

theorem rcKeys_rcSet_subset {d : RCData} {k x : String} {v : RootEntry}
    (h : x ∈ rcKeys (rcSet d k v)) : x ∈ rcKeys d ∨ x = k := by
  induction d with
  | nil => simpa [rcSet, rcKeys] using h
  | cons kv rest ih =>
    simp only [rcSet] at h
    split at h
    · rename_i heq
      rw [rcKeys_cons] at h
      rcases List.mem_cons.mp h with rfl | h2
      · exact Or.inr rfl
      · exact Or.inl (by rw [rcKeys_cons]; exact List.mem_cons_of_mem _ h2)
    · rw [rcKeys_cons] at h
      rcases List.mem_cons.mp h with rfl | h2
      · exact Or.inl (by rw [rcKeys_cons]; exact List.mem_cons_self _ _)
      · rcases ih h2 with h3 | h3
        · exact Or.inl (by rw [rcKeys_cons]; exact List.mem_cons_of_mem _ h3)
        · exact Or.inr h3

theorem rcKeys_rcSet_nodup {d : RCData} (hnd : (rcKeys d).Nodup)
    (k : String) (v : RootEntry) : (rcKeys (rcSet d k v)).Nodup := by
  induction d with
  | nil => simp [rcSet, rcKeys]
  | cons kv rest ih =>
    rw [rcKeys_cons] at hnd
    rcases List.pairwise_cons.mp hnd with ⟨hk, hrest⟩
    simp only [rcSet]
    split
    · rename_i heq
      rw [rcKeys_cons]
      refine List.pairwise_cons.mpr ⟨?_, hrest⟩
      intro y hy
      rw [← heq]
      exact hk y hy
    · rename_i hne
      rw [rcKeys_cons]
      refine List.pairwise_cons.mpr ⟨?_, ih hrest⟩
      intro y hy
      rcases rcKeys_rcSet_subset hy with h2 | rfl
      · exact hk y h2
      · exact hne

theorem rcKeys_rcErase_nodup {d : RCData} (hnd : (rcKeys d).Nodup)
    (k : String) : (rcKeys (rcErase d k)).Nodup := by
  induction d with
  | nil => simp [rcErase, rcKeys]
  | cons kv rest ih =>
    rw [rcKeys_cons] at hnd
    rcases List.pairwise_cons.mp hnd with ⟨hk, hrest⟩
    simp only [rcErase]
    split
    · exact hrest
    · rw [rcKeys_cons]
      refine List.pairwise_cons.mpr ⟨?_, ih hrest⟩
      intro y hy
      rcases List.mem_map.mp hy with ⟨kv', hkv', rfl⟩
      exact hk kv'.1 (List.mem_map.mpr ⟨kv', rcErase_mem hkv', rfl⟩)

theorem rcApplyOv_contract (ov : Override) (e : RootEntry) :
    (rcApplyOv ov e).Contract = e.Contract := by
  unfold rcApplyOv
  rcases ov.type_ with _ | t <;> rcases ov.date with _ | dt <;>
    simp only [] <;> split_ifs <;> rfl

/-! ## Facts about one `rcStep` -/

theorem rcFreshEntry_contract (inc : Incident) :
    (rcFreshEntry inc).Contract = rcContractURL inc := rfl

theorem rcMigrate_mem {st : RCData × Bool} {inc : Incident}
    {kv : String × RootEntry} (h : kv ∈ (rcMigrate st inc).1) :
    kv ∈ st.1 ∨ (kv.1 = inc.name ∧ kv.2.Contract = rcContractURL inc) := by
  unfold rcMigrate at h
  split at h
  · rename_i k e hf
    rcases rcFindEntry_mem hf with ⟨hmem, hc⟩
    split at h
    · rcases rcSet_mem h with h2 | rfl
      · exact Or.inl (rcErase_mem h2)
      · exact Or.inr ⟨rfl, hc⟩
    · exact Or.inl h
  · exact Or.inl h

theorem rcCreate_mem {st : RCData × Bool} {inc : Incident}
    {kv : String × RootEntry} (h : kv ∈ (rcCreate st inc).1) :
    kv ∈ st.1 ∨ (kv.1 = inc.name ∧ kv.2.Contract = rcContractURL inc) := by
  unfold rcCreate at h
  split at h
  · exact Or.inl h
  · rcases rcSet_mem h with h2 | rfl
    · exact Or.inl h2
    · exact Or.inr ⟨rfl, rcFreshEntry_contract inc⟩

theorem rcOverrideEdit_mem {ovm : List (String × Override)} {d : RCData}
    {inc : Incident} {kv : String × RootEntry}
    (h : kv ∈ rcOverrideEdit ovm d inc) :
    kv ∈ d ∨ (kv.1 = inc.name ∧ ∃ e', (inc.name, e') ∈ d ∧ kv.2.Contract = e'.Contract) := by
  unfold rcOverrideEdit at h
  split at h
  · rename_i ov e ho hl
    rcases rcSet_mem h with h2 | rfl
    · exact Or.inl h2
    · exact Or.inr ⟨rfl, e, rcLookup_mem hl, rcApplyOv_contract ov e⟩
  · exact Or.inl h

/-- Any entry of the post-step store is an original entry, or sits at the
incident's display name and holds either the incident's contract URL or
the URL of an original entry that sat at that name. -/
theorem rcStep_mem {ovm : List (String × Override)} {st : RCData × Bool}
    {inc : Incident} {kv : String × RootEntry}
    (h : kv ∈ (rcStep ovm st inc).1) :
    kv ∈ st.1 ∨ (kv.1 = inc.name ∧ (kv.2.Contract = rcContractURL inc ∨
      ∃ e', (inc.name, e') ∈ st.1 ∧ kv.2.Contract = e'.Contract)) := by
  unfold rcStep at h
  simp only [] at h
  rcases rcOverrideEdit_mem h with h1 | ⟨hk, e', he', hc⟩
  · rcases rcCreate_mem h1 with h2 | ⟨hk, hc⟩
    · rcases rcMigrate_mem h2 with h3 | ⟨hk, hc⟩
      · exact Or.inl h3
      · exact Or.inr ⟨hk, Or.inl hc⟩
    · exact Or.inr ⟨hk, Or.inl hc⟩
  · rcases rcCreate_mem he' with h2 | ⟨_, hc'⟩
    · rcases rcMigrate_mem h2 with h3 | ⟨_, hc'⟩
      · exact Or.inr ⟨hk, Or.inr ⟨e', h3, hc⟩⟩
      · exact Or.inr ⟨hk, Or.inl (by rw [hc, hc'])⟩
    · exact Or.inr ⟨hk, Or.inl (by rw [hc, hc'])⟩

/-- After a step, the incident's display name is always a key. -/
theorem rcStep_lookup_self {ovm : List (String × Override)} {st : RCData × Bool}
    {inc : Incident} :
    (rcLookup (rcStep ovm st inc).1 inc.name).isSome = true := by
  unfold rcStep
  simp only []
  have hcreate : (rcLookup (rcCreate (rcMigrate st inc) inc).1 inc.name).isSome = true := by
    unfold rcCreate
    split
    · assumption
    · rw [rcLookup_rcSet_self]; rfl
  unfold rcOverrideEdit
  split
  · rename_i ov e _ _
    rw [rcLookup_rcSet_self]; rfl
  · exact hcreate

/-- A key different from the incident's display name survives the step
provided it is not the key of a holder of the incident's contract URL
(only that key can be popped by the migration). -/
theorem rcStep_lookup_other {ovm : List (String × Override)} {st : RCData × Bool}
    {inc : Incident} {k' : String}
    (h : (rcLookup st.1 k').isSome = true) (hne : k' ≠ inc.name)
    (hsafe : ∀ kv ∈ st.1, kv.2.Contract = rcContractURL inc → kv.1 ≠ k') :
    (rcLookup (rcStep ovm st inc).1 k').isSome = true := by
  unfold rcStep
  simp only []
  have hmig : (rcLookup (rcMigrate st inc).1 k').isSome = true := by
    unfold rcMigrate
    split
    · rename_i k e hf
      rcases rcFindEntry_mem hf with ⟨hmem, hc⟩
      split
      · rw [rcLookup_rcSet_ne _ _ hne, rcLookup_rcErase_ne _ (hsafe (k, e) hmem hc).symm]
        exact h
      · exact h
    · exact h
  have hcreate : (rcLookup (rcCreate (rcMigrate st inc) inc).1 k').isSome = true := by
    unfold rcCreate
    split
    · exact hmig
    · rw [rcLookup_rcSet_ne _ _ hne]
      exact hmig
  unfold rcOverrideEdit
  split
  · rw [rcLookup_rcSet_ne _ _ hne]
    exact hcreate
  · exact hcreate

/-- Step keys stay duplicate-free. -/
theorem rcStep_keys_nodup {ovm : List (String × Override)} {st : RCData × Bool}
    {inc : Incident} (hnd : (rcKeys st.1).Nodup) :
    (rcKeys (rcStep ovm st inc).1).Nodup := by
  unfold rcStep
  simp only []
  have hmig : (rcKeys (rcMigrate st inc).1).Nodup := by
    unfold rcMigrate
    split
    · split
      · exact rcKeys_rcSet_nodup (rcKeys_rcErase_nodup hnd _) _ _
      · exact hnd
    · exact hnd
  have hcreate : (rcKeys (rcCreate (rcMigrate st inc) inc).1).Nodup := by
    unfold rcCreate
    split
    · exact hmig
    · exact rcKeys_rcSet_nodup hmig _ _
  unfold rcOverrideEdit
  split
  · exact rcKeys_rcSet_nodup hcreate _ _
  · exact hcreate

theorem syncedForE_of_synced {d : RCData} {inc : Incident}
    (h : SyncedFor d inc) : SyncedForE d inc :=
  ⟨h.1, fun kv hkv hc => Or.inl (h.2 kv hkv hc)⟩

/-- A step establishes `SyncedForE` for its own incident, given distinct
keys and at most one holder of the incident's URL.  When that holder sits
under the empty-string key, the truthiness guard skips the migration and
the holder stays where it is — hence only the weaker `SyncedForE`. -/
theorem rcStep_syncedE_self {ovm : List (String × Override)} {st : RCData × Bool}
    {inc : Incident} (hnd : (rcKeys st.1).Nodup)
    (hU : HolderUnique st.1 (rcContractURL inc)) :
    SyncedForE (rcStep ovm st inc).1 inc := by
  refine ⟨rcStep_lookup_self, ?_⟩
  intro kv hkv hc
  rcases rcStep_mem hkv with h1 | ⟨hk, _⟩
  · -- an untouched original holder: its key is the found holder's key
    unfold rcStep rcOverrideEdit rcCreate rcMigrate at hkv
    rcases hf : rcFindEntry st.1 (rcContractURL inc) with _ | ⟨k, e⟩
    · exact absurd hc (rcFindEntry_none hf kv h1)
    · rcases rcFindEntry_mem hf with ⟨hmem, hcke⟩
      have hkvk : kv.1 = k := hU kv h1 (k, e) hmem hc hcke
      by_cases hguard : k ≠ "" ∧ k ≠ inc.name
      · -- migration happened: the unique holder was moved; an original
        -- holder still present would have key `k`, but that key was popped
        rw [hf] at hkv
        simp only [if_pos hguard] at hkv
        -- peel the later stages back to the migrated store
        have hkv' : kv ∈ rcSet (rcErase st.1 k) inc.name e ∨ kv.1 = inc.name := by
          rcases rcOverrideEdit_mem (d := (rcCreate (rcSet (rcErase st.1 k) inc.name e, true) inc).1) (by exact hkv) with hh1 | ⟨hh, _⟩
          · rcases rcCreate_mem hh1 with hh2 | ⟨hh, _⟩
            · exact Or.inl hh2
            · exact Or.inr hh
          · exact Or.inr hh
        rcases hkv' with hh | hh
        · rcases rcSet_mem hh with hh2 | hh2
          · exact absurd hkvk (rcErase_mem_ne hnd hh2)
          · rw [hh2]
            exact Or.inl rfl
        · exact Or.inl hh
      · -- no migration: the found key is the display name or empty
        rw [not_and_or, not_not, not_not] at hguard
        rcases hguard with hr | hr
        · exact Or.inr (by rw [hkvk, hr])
        · exact Or.inl (by rw [hkvk, hr])
  · exact Or.inl hk

/-- A step for `inc` preserves `SyncedForE` for an incident `j` with a
different contract path, provided `j`'s display name is not the key of a
holder of `inc`'s URL. -/
theorem rcStep_syncedE_other {ovm : List (String × Override)} {st : RCData × Bool}
    {inc j : Incident}
    (hS : SyncedForE st.1 j)
    (hurlne : rcContractURL inc ≠ rcContractURL j)
    (hprotect : ∀ kv ∈ st.1, kv.2.Contract = rcContractURL inc → kv.1 ≠ j.name) :
    SyncedForE (rcStep ovm st inc).1 j := by
  rcases hS with ⟨hsome, hhold⟩
  constructor
  · by_cases hn : j.name = inc.name
    · rw [hn]; exact rcStep_lookup_self
    · exact rcStep_lookup_other hsome hn hprotect
  · intro kv hkv hc
    rcases rcStep_mem hkv with h1 | ⟨hk, hor⟩
    · exact hhold kv h1 hc
    · rcases hor with h2 | ⟨e', he', hce'⟩
      · exact absurd hc (by rw [h2]; exact hurlne)
      · have h3 : e'.Contract = rcContractURL j := by rw [← hce', hc]
        rcases hhold (inc.name, e') he' h3 with h4 | h4
        · exact Or.inl (by rw [hk]; exact h4)
        · exact Or.inr (by rw [hk]; exact h4)

theorem string_append_left_cancel {s a b : String} (h : s ++ a = s ++ b) : a = b := by
  have hd := congrArg String.data h
  rw [String.data_append, String.data_append] at hd
  have h2 := List.append_cancel_left hd
  cases a; cases b
  exact congrArg String.mk h2

theorem rcContractURL_inj {a b : Incident} (h : a.Contract ≠ b.Contract) :
    rcContractURL a ≠ rcContractURL b := by
  intro he
  exact h (string_append_left_cancel he)

/-- On a store already in sync with the incident (up to empty-keyed
holders, which the truthiness guard never migrates), the step neither
migrates nor creates: only the override edit runs and `added` is
untouched. -/
theorem rcStep_of_syncedE {ovm : List (String × Override)} {st : RCData × Bool}
    {inc : Incident} (hS : SyncedForE st.1 inc) :
    rcStep ovm st inc = (rcOverrideEdit ovm st.1 inc, st.2) := by
  have hmig : rcMigrate st inc = st := by
    unfold rcMigrate
    split
    · rename_i k e hf
      rcases rcFindEntry_mem hf with ⟨hmem, hc⟩
      rcases hS.2 (k, e) hmem hc with hk | hk
      · rw [if_neg (fun hh => hh.2 hk)]
      · rw [if_neg (fun hh => hh.1 hk)]
    · rfl
  have hcreate : rcCreate st inc = st := by
    unfold rcCreate
    rw [if_pos hS.1]
  unfold rcStep
  rw [hmig, hcreate]

/-- The override edit keeps every synchronisation fact. -/
theorem rcOverrideEdit_syncedE {ovm : List (String × Override)} {d : RCData}
    {inc j : Incident} (hSj : SyncedForE d j) :
    SyncedForE (rcOverrideEdit ovm d inc) j := by
  rcases hSj with ⟨hsome, hhold⟩
  constructor
  · unfold rcOverrideEdit
    split
    · by_cases hn : j.name = inc.name
      · rw [hn, rcLookup_rcSet_self]; rfl
      · rw [rcLookup_rcSet_ne _ _ hn]; exact hsome
    · exact hsome
  · intro kv hkv hc
    rcases rcOverrideEdit_mem hkv with h1 | ⟨hk, e', he', hce'⟩
    · exact hhold kv h1 hc
    · have h2 : e'.Contract = rcContractURL j := by rw [← hce', hc]
      rcases hhold (inc.name, e') he' h2 with h3 | h3
      · exact Or.inl (by rw [hk]; exact h3)
      · exact Or.inr (by rw [hk]; exact h3)

/-- On a store in sync with every incident, the whole run sets no `added`
flag — so the root-cause file is not rewritten. -/
theorem rcRun_noAdd (ovm : List (String × Override)) :
    ∀ (incs : List Incident) (d : RCData),
      (∀ i ∈ incs, SyncedForE d i) →
      ((incs.foldl (rcStep ovm) (d, false)).2 = false)
  | [], _, _ => rfl
  | j :: incs, d, hS => by
    simp only [List.foldl_cons]
    rw [rcStep_of_syncedE (hS j (List.mem_cons_self _ _))]
    exact rcRun_noAdd ovm incs _
      (fun i hi => rcOverrideEdit_syncedE (hS i (List.mem_cons_of_mem _ hi)))

/-- Invariant of one `update_rootcause` run: processing incidents with
pairwise distinct contract paths over a store with duplicate-free keys, at
most one holder per incident URL, and no holder of one incident's URL
keyed by a different incident's name, leaves the store in sync with every
incident. -/
theorem rcRun_aux (ovm : List (String × Override)) :
    ∀ (rest : List Incident) (d : RCData) (a : Bool) (done : List Incident),
      (rcKeys d).Nodup →
      (done ++ rest).Pairwise contractNe →
      (∀ i ∈ done, SyncedForE d i) →
      (∀ j ∈ rest, HolderUnique d (rcContractURL j)) →
      (∀ j ∈ rest, ∀ kv ∈ d, kv.2.Contract = rcContractURL j →
        ∀ i ∈ done ++ rest, i.Contract ≠ j.Contract → kv.1 ≠ i.name) →
      ∀ i ∈ done ++ rest, SyncedForE ((rest.foldl (rcStep ovm) (d, a)).1) i
  | [], d, a, done, _, _, hDone, _, _ => by
    simpa using fun i hi => hDone i hi
  | j :: rest', d, a, done, hnd, hPW, hDone, hU, hCross => by
    simp only [List.foldl_cons]
    have hape : (done ++ [j]) ++ rest' = done ++ j :: rest' := by simp
    -- entries of the stepped store holding a remaining incident's URL are
    -- original entries
    have hold_sub : ∀ j' ∈ rest', ∀ kv ∈ (rcStep ovm (d, a) j).1,
        kv.2.Contract = rcContractURL j' → kv ∈ d := by
      intro j' hj' kv hkv hc
      have hcne : j.Contract ≠ j'.Contract := by
        have := (List.pairwise_append.mp hPW).2.1
        exact (List.pairwise_cons.mp this).1 j' hj'
      rcases rcStep_mem hkv with h1 | ⟨hk, h2 | ⟨e', he', hce'⟩⟩
      · exact h1
      · exact absurd (by rw [← h2, hc]) (rcContractURL_inj hcne)
      · exfalso
        have h3 : e'.Contract = rcContractURL j' := by rw [← hce', hc]
        exact hCross j' (List.mem_cons_of_mem _ hj') (j.name, e') he' h3 j
          (List.mem_append.mpr (Or.inr (List.mem_cons_self _ _))) hcne rfl
    have hrec := rcRun_aux ovm rest' (rcStep ovm (d, a) j).1 (rcStep ovm (d, a) j).2
      (done ++ [j])
      (rcStep_keys_nodup hnd)
      (by rw [hape]; exact hPW)
      (by
        intro i hi
        rcases List.mem_append.mp hi with hi1 | hi2
        · -- previously processed incidents stay in sync
          have hcne : i.Contract ≠ j.Contract := by
            have := (List.pairwise_append.mp hPW).2.2
            exact this i hi1 j (List.mem_cons_self _ _)
          exact rcStep_syncedE_other (hDone i hi1) (rcContractURL_inj (Ne.symm hcne))
            (fun kv hkv hc => hCross j (List.mem_cons_self _ _) kv hkv hc i
              (List.mem_append.mpr (Or.inl hi1)) hcne)
        · have hij : i = j := by simpa using hi2
          rw [hij]
          exact rcStep_syncedE_self hnd (hU j (List.mem_cons_self _ _)))
      (by
        intro j' hj' kv1 hkv1 kv2 hkv2 hc1 hc2
        exact hU j' (List.mem_cons_of_mem _ hj') kv1 (hold_sub j' hj' kv1 hkv1 hc1)
          kv2 (hold_sub j' hj' kv2 hkv2 hc2) hc1 hc2)
      (by
        intro j' hj' kv hkv hc i hi hcne
        rw [hape] at hi
        exact hCross j' (List.mem_cons_of_mem _ hj') kv (hold_sub j' hj' kv hkv hc) hc
          i hi hcne)
    intro i hi
    apply hrec
    rw [hape]
    exact hi

/-- C6 (amended): under the catalog invariants — pairwise distinct contract
paths in the loaded incident store, pairwise distinct candidate paths,
duplicate-free root-cause keys, at most one root-cause holder per incident
contract URL, and no holder of one incident's URL keyed by a different
incident's display name — a second run of the full pipeline over unchanged
inputs reproduces both persisted catalogs exactly. -/
theorem pipeline_idempotent_amended (ovm : List (String × Override))
    (i0 : List Incident) (r0 : RCData) (cands : List Candidate) (po : Bool)
    (hA : i0.Pairwise contractNe)
    (hB : cands.Pairwise relNe)
    (hK : (rcKeys r0).Nodup)
    (hU : ∀ inc ∈ updateIncidents ovm i0 cands po,
      HolderUnique r0 (rcContractURL inc))
    (hW : ∀ j ∈ updateIncidents ovm i0 cands po, ∀ kv ∈ r0,
      kv.2.Contract = rcContractURL j →
      ∀ i ∈ updateIncidents ovm i0 cands po, i.Contract ≠ j.Contract →
        kv.1 ≠ i.name) :
    runPipeline ovm (runPipeline ovm i0 r0 cands po).1
        (runPipeline ovm i0 r0 cands po).2 cands po =
      runPipeline ovm i0 r0 cands po := by
  have hPW1 : (updateIncidents ovm i0 cands po).Pairwise contractNe :=
    (updateIncidents_absorbs ovm i0 cands po hA hB).1
  have hIdem : updateIncidents ovm (updateIncidents ovm i0 cands po) cands po =
      updateIncidents ovm i0 cands po := updateIncidents_idem ovm i0 cands po hA hB
  set i1 := updateIncidents ovm i0 cands po with hi1
  set res1 := updateRootcause ovm r0 i1 with hres1
  have hSync : ∀ i ∈ i1, SyncedForE res1.1 i := by
    intro i hi
    have haux := rcRun_aux ovm i1 r0 false [] hK (by simpa using hPW1)
      (by intro i hi; exact absurd hi (List.not_mem_nil i))
      hU
      (by
        intro j hj kv hkv hc i hi hne
        exact hW j hj kv hkv hc i (by simpa using hi) hne)
    exact haux i (by simpa using hi)
  have e1 : runPipeline ovm i0 r0 cands po = (i1, persistRC r0 res1) := rfl
  rw [e1]
  show runPipeline ovm i1 (persistRC r0 res1) cands po = (i1, persistRC r0 res1)
  have e2 : runPipeline ovm i1 (persistRC r0 res1) cands po =
      (updateIncidents ovm i1 cands po,
        persistRC (persistRC r0 res1)
          (updateRootcause ovm (persistRC r0 res1)
            (updateIncidents ovm i1 cands po))) := rfl
  rw [e2, hIdem]
  by_cases hadd : res1.2 = true
  · have hp : persistRC r0 res1 = res1.1 := by
      unfold persistRC
      rw [if_pos hadd]
    rw [hp]
    have hnoadd : (updateRootcause ovm res1.1 i1).2 = false := by
      unfold updateRootcause
      exact rcRun_noAdd ovm i1 res1.1 hSync
    have hp2 : persistRC res1.1 (updateRootcause ovm res1.1 i1) = res1.1 := by
      unfold persistRC
      rw [hnoadd]
      simp
    rw [hp2]
  · have hadd' : res1.2 = false := by
      cases hres : res1.2
      · rfl
      · exact absurd hres hadd
    have hp : persistRC r0 res1 = r0 := by
      unfold persistRC
      rw [hadd']
      simp
    rw [hp, ← hres1, hp]

/-! ## Facts about the ordered pattern table -/

theorem firstLabel_append (pre : List (List String × String)) (p : List String)
    (lbl : String) (post : List (List String × String)) (t : List Char)
    (hpre : ∀ e ∈ pre, patMatches e.1 t = false)
    (hmatch : patMatches p t = true) :
    firstLabel (pre ++ (p, lbl) :: post) t = some lbl := by
  induction pre with
  | nil =>
    simp only [List.nil_append, firstLabel, hmatch, if_true]
  | cons e pre' ih =>
    have he : patMatches e.1 t = false := hpre e (List.mem_cons_self _ _)
    simp only [List.cons_append, firstLabel, he]
    simp only [Bool.false_eq_true, if_false]
    exact ih (fun e' he' => hpre e' (List.mem_cons_of_mem _ he'))

theorem firstLabel_none (t : List Char) :
    ∀ tbl : List (List String × String),
      (∀ e ∈ tbl, patMatches e.1 t = false) → firstLabel tbl t = none
  | [], _ => rfl
  | e :: tbl, h => by
    have he : patMatches e.1 t = false := h e (List.mem_cons_self _ _)
    simp only [firstLabel, he, Bool.false_eq_true, if_false]
    exact firstLabel_none t tbl (fun e' he' => h e' (List.mem_cons_of_mem _ he'))

/-- C3 (amended): a phrase whose processed form contains "reentrancy" maps
to the reentrancy label **provided** none of the 41 earlier patterns of the
ordered table matches it (earlier keywords such as "auth" or "manipulation"
win otherwise); if no pattern at all matches, the processed phrase is
returned title-cased; the empty input yields the reserved "Unknown". -/
theorem attack_normalizer_spec :
    (∀ s : String, patMatches ["reentrancy"] (preprocessAttack s) = true →
      (∀ e ∈ ATTACK_TYPE_MAPPING.take 41,
        patMatches e.1 (preprocessAttack s) = false) →
      normalizeAttackType s = "Reentrancy Attack") ∧
    (∀ s : String, s ≠ "" →
      (∀ e ∈ ATTACK_TYPE_MAPPING, patMatches e.1 (preprocessAttack s) = false) →
      normalizeAttackType s = String.mk (pyTitleL (preprocessAttack s))) ∧
    normalizeAttackType "" = "Unknown" := by
  refine ⟨?_, ?_, rfl⟩
  · intro s hmatch hpre
    by_cases hs : s = ""
    · rw [hs] at hmatch
      exact absurd hmatch (by decide)
    · have htbl : ATTACK_TYPE_MAPPING = ATTACK_TYPE_MAPPING.take 41 ++
          (["reentrancy"], "Reentrancy Attack") :: ATTACK_TYPE_MAPPING.drop 42 := by rfl
      have key : firstLabel ATTACK_TYPE_MAPPING (preprocessAttack s) =
          some "Reentrancy Attack" := by
        rw [htbl]
        exact firstLabel_append _ _ _ _ _ hpre hmatch
      simp only [normalizeAttackType, if_neg hs, key]
  · intro s hs hnone
    have key := firstLabel_none (preprocessAttack s) _ hnone
    simp only [normalizeAttackType, if_neg hs, key]

/-- C3 counterexample: the claim as stated is false — "unauthorized
reentrancy" contains "reentrancy" yet normalizes to "Access Control"
(the earlier "auth" pattern wins), and the unmatched-phrase example
"Weird New Bug Class" matches the "bug" pattern and maps to
"Implementation Bug", not to its title-cased self. -/
theorem attack_normalizer_claim_false :
    normalizeAttackType "unauthorized reentrancy" = "Access Control" ∧
    normalizeAttackType "unauthorized reentrancy" ≠ "Reentrancy Attack" ∧
    normalizeAttackType "Weird New Bug Class" = "Implementation Bug" ∧
    normalizeAttackType "Weird New Bug Class" ≠ "Weird New Bug Class" := by
  refine ⟨by decide, by decide, by decide, by decide⟩

theorem attack_normalizer_spec_witness :
    normalizeAttackType "reentrancy" = "Reentrancy Attack" ∧
    normalizeAttackType "zzz qqq" = "Zzz Qqq" := by
  constructor
  · exact attack_normalizer_spec.1 "reentrancy" (by decide) (by decide)
  · have h := attack_normalizer_spec.2.1 "zzz qqq" (by decide) (by decide)
    rw [h]
    decide

/-- C1: end-to-end record for the artifact `src/test/2025-07/foo_exp.sol`
with `@Type: Price Manipulation`, `Total Lost: 1.2M USD` and
`createSelectFork("arbitrum")`, no README and no override.  All fields
match the claimed record **except the loss**: the lazy numeric group of the
loss regex captures only the first digit, so the engine stores `1.0`, not
the claimed `1200000.0`. -/
theorem end_to_end_foo_artifact :
    updateIncidents [] []
      [parseArtifactNoReadme "source/src/test/2025-07" "foo_exp.sol"
        "// @KeyInfo - Total Lost: 1.2M USD\n// @Type: Price Manipulation\ncreateSelectFork(\"arbitrum\");"]
      false =
    [{ date := "20250701", name := "foo", type_ := "Price Manipulation",
       Lost := 1, lossType := "USD", Contract := "src/test/2025-07/foo_exp.sol",
       chain := some "Arbitrum" }] := by decide

/-- C2: the loss parser at the claimed inputs.  Because every group after
the lazy numeric group is optional, the number is truncated to its first
digit and the suffix/currency are dropped unless they follow that single
digit directly: "6.8k USDC" yields `(6, "USD")`, not `(6800, "USDC")`;
"1.7M US$" yields `(1, "USD")`, not `(1700000, "USD")`.  Unparsable input
does default to `(0, "USD")`, and a single-digit amount (the shape the
docstring's multiplier logic was written for) parses fully. -/
theorem loss_parser_first_digit_only :
    parseLossAndCurrency "Total Lost: 6.8k USDC" = (6, "USD") ∧
    parseLossAndCurrency "Total Lost: 1.7M US$" = (1, "USD") ∧
    parseLossAndCurrency "not a number" = (0, "USD") ∧
    parseLossAndCurrency "" = (0, "USD") ∧
    parseLossAndCurrency "Lost: 5K USDC" = (5000, "USDC") := by
  refine ⟨by decide, by decide, by decide, by decide, by decide⟩

/-- C4 counterexample: the changelog-diff pipeline deduplicates by whole
record, not by contract path — a block producing a record that differs
from an existing one only in its loss is appended, leaving two catalog
records with the same contract path. -/
theorem contract_unique_claim_false :
    ¬ ((diffAppend
        [{ date := "20250101", name := "a", type_ := "T", Lost := 1,
           lossType := "USD", Contract := "src/test/2025-01/a_exp.sol", chain := none }]
        [{ date := "20250101", name := "a", type_ := "T", Lost := 2,
           lossType := "USD", Contract := "src/test/2025-01/a_exp.sol", chain := none }]).Pairwise
      contractNe) := by decide

/-- C4 (amended): `update_incidents` does key the merge on the contract
path — a loaded catalog with distinct paths and candidates with distinct
paths yield a catalog with distinct paths, known paths being updated in
place; the changelog-diff pipeline prevents re-insertion only of a
byte-identical record. -/
theorem contract_unique_amended (ovm : List (String × Override))
    (i0 : List Incident) (cands : List Candidate) (po : Bool)
    (hA : i0.Pairwise contractNe) (hB : cands.Pairwise relNe) :
    (updateIncidents ovm i0 cands po).Pairwise contractNe ∧
    ∀ (existing : List Incident) (inc : Incident), inc ∈ existing →
      diffAppend existing [inc] = existing := by
  refine ⟨(updateIncidents_absorbs ovm i0 cands po hA hB).1, ?_⟩
  intro existing inc hmem
  simp [diffAppend, hmem]

theorem contract_unique_amended_witness :
    (updateIncidents [] []
      [{ rel := "src/test/2025-01/a_exp.sol", fname := "a_exp.sol",
         date := "20250101", name := "a", type_ := "T", lost := 1,
         lossType := "USD", chain := "BSC" }] false).Pairwise contractNe ∧
    diffAppend
      [{ date := "20250101", name := "a", type_ := "T", Lost := 1,
         lossType := "USD", Contract := "src/test/2025-01/a_exp.sol", chain := none }]
      [{ date := "20250101", name := "a", type_ := "T", Lost := 1,
         lossType := "USD", Contract := "src/test/2025-01/a_exp.sol", chain := none }] =
      [{ date := "20250101", name := "a", type_ := "T", Lost := 1,
         lossType := "USD", Contract := "src/test/2025-01/a_exp.sol", chain := none }] :=
  ⟨(contract_unique_amended [] [] _ false (by decide) (by decide)).1,
   (contract_unique_amended [] [] [] false (by decide) (by decide)).2 _ _
     (List.mem_cons_self _ _)⟩

/-- C5 counterexample: merging a candidate parsed from an artifact with no
markers (structural defaults: chain "Unknown", currency "USD") onto an
existing catalog entry regresses the curated chain "Arbitrum" to "Unknown"
and the curated currency "BUSD" to "USD" — truthy defaults do overwrite. -/
theorem merge_regresses_chain_default :
    updateIncidents []
      [{ date := "20250701", name := "bar", type_ := "Reentrancy Attack",
         Lost := 5000, lossType := "BUSD",
         Contract := "src/test/2025-07/bar_exp.sol", chain := some "Arbitrum" }]
      [parseArtifactNoReadme "source/src/test/2025-07" "bar_exp.sol" "pragma solidity;"]
      false =
    [{ date := "20250701", name := "bar", type_ := "Reentrancy Attack",
       Lost := 5000, lossType := "USD",
       Contract := "src/test/2025-07/bar_exp.sol", chain := some "Unknown" }] := by
  decide

/-- C5 (amended): the in-place merge writes only truthy candidate values —
an empty string never overwrites, a zero loss never overwrites, and the
contract path is never touched; in particular an existing non-empty type
survives a candidate with an empty type.  (Truthy structural defaults such
as chain "Unknown" or currency "USD" do overwrite, per the
counterexample.) -/
theorem merge_truthy_only (e : Incident) (c : Candidate) :
    (c.type_ = "" → (mergeFields e c).type_ = e.type_) ∧
    (c.date = "" → (mergeFields e c).date = e.date) ∧
    (c.name = "" → (mergeFields e c).name = e.name) ∧
    (c.lost = 0 → (mergeFields e c).Lost = e.Lost) ∧
    (c.lossType = "" → (mergeFields e c).lossType = e.lossType) ∧
    (c.chain = "" → (mergeFields e c).chain = e.chain) ∧
    (mergeFields e c).Contract = e.Contract := by
  refine ⟨?_, ?_, ?_, ?_, ?_, ?_, rfl⟩ <;> intro h <;> simp [mergeFields, h]

theorem merge_truthy_only_witness :
    (mergeFields
      { date := "20250701", name := "bar", type_ := "Reentrancy Attack",
        Lost := 5000, lossType := "BUSD", Contract := "c.sol",
        chain := some "Arbitrum" }
      { rel := "c.sol", fname := "c.sol", date := "", name := "", type_ := "",
        lost := 0, lossType := "", chain := "" }).type_ = "Reentrancy Attack" ∧
    (mergeFields
      { date := "20250701", name := "bar", type_ := "Reentrancy Attack",
        Lost := 5000, lossType := "BUSD", Contract := "c.sol",
        chain := some "Arbitrum" }
      { rel := "c.sol", fname := "c.sol", date := "", name := "", type_ := "",
        lost := 0, lossType := "", chain := "" }).Lost = 5000 :=
  ⟨(merge_truthy_only _ _).1 rfl, (merge_truthy_only _ _).2.2.2.1 rfl⟩

/-- C8: overrides beat parsed values — a candidate parsed with loss 1234
under an override setting loss 5000 ends with loss 5000, on both the
fresh-entry path and the in-place merge path. -/
theorem override_loss_precedence (c : Candidate) (ov : Override)
    (hparsed : c.lost = 1234) (hov : ov.Lost = some 5000) :
    (applyOverride [(c.rel, ov)] c).lost = 5000 ∧
    (freshEntry (applyOverride [(c.rel, ov)] c)).Lost = 5000 ∧
    ∀ e : Incident, (mergeFields e (applyOverride [(c.rel, ov)] c)).Lost = 5000 := by
  have hlook : ovLookup [(c.rel, ov)] c.rel = some ov := by
    simp [ovLookup, List.find?]
  have h1 : (applyOverride [(c.rel, ov)] c).lost = 5000 := by
    unfold applyOverride
    rw [hlook]
    simp [hov]
  refine ⟨h1, by simp [freshEntry, h1], ?_⟩
  intro e
  simp only [mergeFields, h1]
  norm_num

theorem override_loss_precedence_witness :
    (applyOverride
      [("c.sol", ({ Lost := some 5000 } : Override))]
      { rel := "c.sol", fname := "c.sol", date := "20250101", name := "a",
        type_ := "T", lost := 1234, lossType := "USD", chain := "BSC" }).lost = 5000 ∧
    (freshEntry (applyOverride
      [("c.sol", ({ Lost := some 5000 } : Override))]
      { rel := "c.sol", fname := "c.sol", date := "20250101", name := "a",
        type_ := "T", lost := 1234, lossType := "USD", chain := "BSC" })).Lost = 5000 :=
  ⟨(override_loss_precedence
      { rel := "c.sol", fname := "c.sol", date := "20250101", name := "a",
        type_ := "T", lost := 1234, lossType := "USD", chain := "BSC" }
      { Lost := some 5000 } rfl rfl).1,
   (override_loss_precedence
      { rel := "c.sol", fname := "c.sol", date := "20250101", name := "a",
        type_ := "T", lost := 1234, lossType := "USD", chain := "BSC" }
      { Lost := some 5000 } rfl rfl).2.1⟩

/-- C7: root-cause key migration.  When the store holds the (unique) entry
for an incident's contract URL under an old display name — a truthy
(non-empty) key, per the source's `if existing_key and …` guard at
line 645 — and the override only renames, `update_rootcause` moves the
entry to the new name: `added` is set, the entry — its `rootCause`
narrative included — is found intact under the new name, and every holder
of that URL now sits at the new name. -/
theorem rootcause_key_migration (inc : Incident) (r0 : RCData) (old : String)
    (e : RootEntry)
    (hK : (rcKeys r0).Nodup)
    (hfind : rcFindEntry r0 (rcContractURL inc) = some (old, e))
    (hne : old ≠ inc.name)
    (hold_ne : old ≠ "")
    (huniq : ∀ kv ∈ r0, kv.2.Contract = rcContractURL inc → kv.1 = old) :
    (updateRootcause [(inc.Contract, { name := some inc.name })] r0 [inc]).2 = true ∧
    rcLookup (updateRootcause [(inc.Contract, { name := some inc.name })] r0 [inc]).1
      inc.name = some e ∧
    ∀ kv ∈ (updateRootcause [(inc.Contract, { name := some inc.name })] r0 [inc]).1,
      kv.2.Contract = rcContractURL inc → kv.1 = inc.name := by
  have hstep : updateRootcause [(inc.Contract, { name := some inc.name })] r0 [inc] =
      rcStep [(inc.Contract, { name := some inc.name })] (r0, false) inc := rfl
  have hmig : rcMigrate (r0, false) inc = (rcSet (rcErase r0 old) inc.name e, true) := by
    unfold rcMigrate
    split
    · rename_i k e' hf
      have h2 : (old, e) = (k, e') := Option.some.inj (hfind.symm.trans hf)
      injection h2 with h3 h4
      subst h3
      subst h4
      rw [if_pos ⟨hold_ne, hne⟩]
    · rename_i hf
      rw [hfind] at hf
      exact absurd hf (by simp)
  have hcreate : rcCreate (rcSet (rcErase r0 old) inc.name e, true) inc =
      (rcSet (rcErase r0 old) inc.name e, true) := by
    unfold rcCreate
    rw [if_pos (by rw [rcLookup_rcSet_self]; rfl)]
  have hovapp : ∀ e' : RootEntry,
      rcApplyOv { name := some inc.name } e' = e' := fun _ => rfl
  have hlook : ovLookup [(inc.Contract, ({ name := some inc.name } : Override))]
      inc.Contract = some { name := some inc.name } := by
    simp [ovLookup, List.find?]
  have hedit : rcOverrideEdit [(inc.Contract, { name := some inc.name })]
      (rcSet (rcErase r0 old) inc.name e) inc =
      rcSet (rcSet (rcErase r0 old) inc.name e) inc.name e := by
    unfold rcOverrideEdit
    split
    · rename_i ov e' ho hl
      have hov : ov = { name := some inc.name } := by
        rw [hlook] at ho
        exact (Option.some.inj ho).symm
      have he' : e' = e := by
        rw [rcLookup_rcSet_self] at hl
        exact (Option.some.inj hl).symm
      rw [hov, he', hovapp]
    · rename_i hno
      exact (hno _ e hlook (rcLookup_rcSet_self _ _ _)).elim
  have hres : updateRootcause [(inc.Contract, { name := some inc.name })] r0 [inc] =
      (rcSet (rcSet (rcErase r0 old) inc.name e) inc.name e, true) := by
    rw [hstep]
    unfold rcStep
    rw [hmig, hcreate]
    simp only []
    rw [hedit]
  rw [hres]
  refine ⟨rfl, rcLookup_rcSet_self _ _ _, ?_⟩
  intro kv hkv hc
  rcases rcSet_mem hkv with h1 | rfl
  · rcases rcSet_mem h1 with h2 | rfl
    · exfalso
      have hmem : kv ∈ r0 := rcErase_mem h2
      have hk : kv.1 = old := huniq kv hmem hc
      exact rcErase_mem_ne hK h2 hk
    · rfl
  · rfl

theorem rootcause_key_migration_witness :
    (updateRootcause [("c.sol", { name := some "New" })]
      [("Old", { type_ := "T", date := "2025-01-01", rootCause := "narrative", images := [], Lost := "1.0 USD", Contract := "https://github.com/SunWeb3Sec/DeFiHackLabs/blob/main/c.sol" })]
      [{ date := "20250101", name := "New", type_ := "T", Lost := 1,
         lossType := "USD", Contract := "c.sol", chain := some "E" }]).2 = true ∧
    rcLookup (updateRootcause [("c.sol", { name := some "New" })]
      [("Old", { type_ := "T", date := "2025-01-01", rootCause := "narrative", images := [], Lost := "1.0 USD", Contract := "https://github.com/SunWeb3Sec/DeFiHackLabs/blob/main/c.sol" })]
      [{ date := "20250101", name := "New", type_ := "T", Lost := 1,
         lossType := "USD", Contract := "c.sol", chain := some "E" }]).1 "New" =
      some { type_ := "T", date := "2025-01-01", rootCause := "narrative", images := [], Lost := "1.0 USD", Contract := "https://github.com/SunWeb3Sec/DeFiHackLabs/blob/main/c.sol" } := by
  have h := rootcause_key_migration
    { date := "20250101", name := "New", type_ := "T", Lost := 1,
      lossType := "USD", Contract := "c.sol", chain := some "E" }
    [("Old", { type_ := "T", date := "2025-01-01", rootCause := "narrative", images := [], Lost := "1.0 USD", Contract := "https://github.com/SunWeb3Sec/DeFiHackLabs/blob/main/c.sol" })]
    "Old"
    { type_ := "T", date := "2025-01-01", rootCause := "narrative", images := [], Lost := "1.0 USD", Contract := "https://github.com/SunWeb3Sec/DeFiHackLabs/blob/main/c.sol" }
    (by decide) (by decide) (by decide) (by decide) (by decide)
  exact ⟨h.1, h.2.1⟩

/-- C10: the root-cause store is persisted only when the run created or
migrated an entry.  On a store already in sync with every incident, no
`added` flag is set, so the persisted file is exactly the loaded one even
though override edits may have changed the in-memory data. -/
theorem rootcause_no_write_without_add (ovm : List (String × Override))
    (r0 : RCData) (incs : List Incident)
    (h : ∀ i ∈ incs, SyncedFor r0 i) :
    persistRC r0 (updateRootcause ovm r0 incs) = r0 := by
  have hadd : (updateRootcause ovm r0 incs).2 = false := by
    unfold updateRootcause
    exact rcRun_noAdd ovm incs r0 (fun i hi => syncedForE_of_synced (h i hi))
  unfold persistRC
  rw [hadd]
  simp

theorem rootcause_no_write_without_add_witness :
    persistRC
      [("a", { type_ := "T", date := "2025-01-01", rootCause := "rc", images := [], Lost := "1.0 USD", Contract := "https://github.com/SunWeb3Sec/DeFiHackLabs/blob/main/c.sol" })]
      (updateRootcause [("c.sol", { type_ := some "NewType" })]
        [("a", { type_ := "T", date := "2025-01-01", rootCause := "rc", images := [], Lost := "1.0 USD", Contract := "https://github.com/SunWeb3Sec/DeFiHackLabs/blob/main/c.sol" })]
        [{ date := "20250101", name := "a", type_ := "t", Lost := 1,
           lossType := "USD", Contract := "c.sol", chain := some "E" }]) =
      [("a", { type_ := "T", date := "2025-01-01", rootCause := "rc", images := [], Lost := "1.0 USD", Contract := "https://github.com/SunWeb3Sec/DeFiHackLabs/blob/main/c.sol" })] ∧
    (updateRootcause [("c.sol", { type_ := some "NewType" })]
      [("a", { type_ := "T", date := "2025-01-01", rootCause := "rc", images := [], Lost := "1.0 USD", Contract := "https://github.com/SunWeb3Sec/DeFiHackLabs/blob/main/c.sol" })]
      [{ date := "20250101", name := "a", type_ := "t", Lost := 1,
         lossType := "USD", Contract := "c.sol", chain := some "E" }]).1 ≠
      [("a", { type_ := "T", date := "2025-01-01", rootCause := "rc", images := [], Lost := "1.0 USD", Contract := "https://github.com/SunWeb3Sec/DeFiHackLabs/blob/main/c.sol" })] :=
  ⟨rootcause_no_write_without_add _ _ _ (by decide), by decide⟩

/-- C9 counterexample: an unparseable persisted store is **fatal** in both
`update_incidents` (lines 162-164) and `update_rootcause` (lines 625-627):
`json.load` has no handler there, so the run raises instead of treating
the store as empty. -/
theorem store_load_fatal :
    loadIncidentsStore .unparseable = .error () ∧
    loadRootcauseStore .unparseable = .error () := ⟨rfl, rfl⟩

/-- C9 (amended): the override loader treats every failure mode — missing
file, unparseable JSON, wrong top-level shape — as the empty mapping, a
missing store file is treated as an empty catalog, and the markdown
root-cause builder's `merge_existing` treats an unparseable store as the
empty mapping and proceeds; but an unparseable store file makes
`update_incidents`/`update_rootcause` raise (see the counterexample). -/
theorem loaders_soft_fail_amended :
    loadOverrides .missing = [] ∧
    loadOverrides .unparseable = [] ∧
    loadOverrides .parsedOther = [] ∧
    loadIncidentsStore .missing = .ok [] ∧
    loadRootcauseStore .missing = .ok [] ∧
    (∀ nd : MdMap, mergeExisting .missing nd = nd) ∧
    (∀ nd : MdMap, mergeExisting .unparseable nd = mdMergeLoop [] nd) :=
  ⟨rfl, rfl, rfl, rfl, rfl, fun _ => rfl, fun _ => rfl⟩

/-- C6 counterexample: with two catalog records sharing one contract path
(the changelog-diff pipeline can produce such a state), the second
pipeline run targets a different "last carrier" of the path than the
first (the sort moved it), so the persisted catalog changes again — the
claim quantified over *every* store contents is false. -/
theorem pipeline_not_idempotent_dup_paths :
    runPipeline []
      (runPipeline []
        [{ date := "20240101", name := "p", type_ := "A", Lost := 1, lossType := "USD", Contract := "C", chain := none },
         { date := "20230101", name := "q", type_ := "B", Lost := 1, lossType := "USD", Contract := "C", chain := none }]
        []
        [{ rel := "C", fname := "C", date := "20250101", name := "n", type_ := "t", lost := 1, lossType := "USD", chain := "x" }]
        false).1
      (runPipeline []
        [{ date := "20240101", name := "p", type_ := "A", Lost := 1, lossType := "USD", Contract := "C", chain := none },
         { date := "20230101", name := "q", type_ := "B", Lost := 1, lossType := "USD", Contract := "C", chain := none }]
        []
        [{ rel := "C", fname := "C", date := "20250101", name := "n", type_ := "t", lost := 1, lossType := "USD", chain := "x" }]
        false).2
      [{ rel := "C", fname := "C", date := "20250101", name := "n", type_ := "t", lost := 1, lossType := "USD", chain := "x" }]
      false ≠
    runPipeline []
      [{ date := "20240101", name := "p", type_ := "A", Lost := 1, lossType := "USD", Contract := "C", chain := none },
       { date := "20230101", name := "q", type_ := "B", Lost := 1, lossType := "USD", Contract := "C", chain := none }]
      []
      [{ rel := "C", fname := "C", date := "20250101", name := "n", type_ := "t", lost := 1, lossType := "USD", chain := "x" }]
      false := by decide

theorem pipeline_idempotent_amended_witness :
    runPipeline []
      (runPipeline [] [] []
        [{ rel := "src/test/2025-07/foo_exp.sol", fname := "foo_exp.sol", date := "20250701", name := "foo", type_ := "T", lost := 5, lossType := "USD", chain := "BSC" }]
        false).1
      (runPipeline [] [] []
        [{ rel := "src/test/2025-07/foo_exp.sol", fname := "foo_exp.sol", date := "20250701", name := "foo", type_ := "T", lost := 5, lossType := "USD", chain := "BSC" }]
        false).2
      [{ rel := "src/test/2025-07/foo_exp.sol", fname := "foo_exp.sol", date := "20250701", name := "foo", type_ := "T", lost := 5, lossType := "USD", chain := "BSC" }]
      false =
    runPipeline [] [] []
      [{ rel := "src/test/2025-07/foo_exp.sol", fname := "foo_exp.sol", date := "20250701", name := "foo", type_ := "T", lost := 5, lossType := "USD", chain := "BSC" }]
      false :=
  pipeline_idempotent_amended [] [] []
    [{ rel := "src/test/2025-07/foo_exp.sol", fname := "foo_exp.sol", date := "20250701", name := "foo", type_ := "T", lost := 5, lossType := "USD", chain := "BSC" }]
    false (by decide) (by decide) (by decide) (by decide) (by decide)

/-! ## Parser fidelity checks (cross-validated against the source's regex
semantics on concrete inputs) -/

example : parseLossAndCurrency "Lost : ~$7M" = (7000000, "USD") := by decide

example : parseLossAndCurrency "loss:9b vUSD" = (9000000000, "VUSD") := by decide

example : parseLossAndCurrency "Lost: 5 MUSD" = (5000000, "USD") := by decide

example : parseLossAndCurrency "no loss here" = (0, "USD") := by decide

example : parseLossAndCurrency "Lost:5k" = (5000, "USD") := by decide

example : parseLossAndCurrency "Lost: 12K USD" = (1, "USD") := by decide

example : parseType "@Type: Reentrancy\nmore" = "Reentrancy" := by decide

example : parseType "@Type:   spaced   x  " = "spaced   x" := by decide

example : parseChain "x createSelectFork( \"BSC\", 123)" = "BSC" := by decide

example : parseChain "createSelectFork(\"zora\")" = "Zora" := by decide

example : parseChain "CREATESELECTFORK(\"bsc\")" = "Unknown" := by decide

example : normalizeCurrency "US$" = "USD" := by decide

example : normalizeCurrency "$" = "USD" := by decide

example : normalizeAttackType "Attack: Rugpull" = "Social Engineering" := by decide

example : normalizeAttackType "manipulation via reentrancy" = "Price Manipulation" := by decide

example : normalizeAttackType "Read-only Reentrancy" = "Reentrancy Attack" := by decide
